import Mathlib

/-!
Verification of the persistence core (db_file.c) and the external-process
facility (exec.c) of a MOO-family server.  The C sources are shallowly
embedded below: pure computations become Lean functions, the stateful
checkpoint protocol becomes an explicit trace of file-system operations,
machine integers become Int/Nat, and the object stores become lists of
optional records indexed by slot number.
-/

/-! ## Core data model -/

/-- Object ids are signed integers in the C source (`typedef int32 Objid`). -/
abbrev Objid := Int

/-- The null-object sentinel (`#define NOTHING -1`). -/
def NOTHING : Objid := -1

/-- The tagged value variant of the external value system (`Var` in
structures.h).  Only the shapes the persistence core inspects are
distinguished; every other tag is collapsed into `other`. -/
inductive Var where
  | int (n : Int)
  | obj (o : Objid)
  | str (s : String)
  | list (l : List Var)
  | other
deriving Repr

/-- Verb metadata record (`Verbdef`), minus the intrusive `next` pointer,
which the embedding replaces by list order. -/
structure Verbdef where
  name : String
  owner : Objid
  perms : Int
  prep : Int
deriving Repr, DecidableEq

/-- Property-name record (`Propdef`). -/
structure Propdef where
  name : String
deriving Repr, DecidableEq

/-- Property-value slot (`Pval`). -/
structure Pval where
  pvar : Var
  owner : Objid
  perms : Int
deriving Repr

/-- The legacy format-version-4 object (`struct Object4` in db_file.c):
relationships are intrusive singly-linked chains
`parent`/`child`/`sibling` and `location`/`contents`/`next`. -/
structure Object4 where
  id : Objid
  owner : Objid
  location : Objid
  contents : Objid
  next : Objid
  parent : Objid
  child : Objid
  sibling : Objid
  name : String
  flags : Int
  verbdefs : List Verbdef
  propdefs : List Propdef
  propval : List Pval
deriving Repr

/-- The live (next-gen) object (`Object` in db.h): relationship fields are
general values so that `parents` can be one id or a list of ids. -/
structure Object where
  id : Objid
  name : String
  flags : Int
  owner : Objid
  location : Var
  contents : Var
  parents : Var
  children : Var
  verbdefs : List Verbdef
  propdefs : List Propdef
  propval : List Pval
deriving Repr

/-- The legacy object table `Object4 **objects`: slot `i` holds `none` for a
recycled slot (a null pointer in C). -/
abbrev V4Store := List (Option Object4)

/-- The live object store, same slot layout. -/
abbrev NGStore := List (Option Object)

/-- Total lookup of slot `n` in a table of optional slots; out-of-range
lookups yield `none`, exactly like the bounds check in `dbv4_find_object`. -/
def lookupSlot {α : Type} : List (Option α) → Nat → Option α
  | [], _ => none
  | s :: _, 0 => s
  | _ :: rest, n + 1 => lookupSlot rest n

/-- `dbv4_find_object`: null for negative or out-of-range ids, and null for
recycled slots. -/
def dbv4_find_object (tbl : V4Store) (oid : Objid) : Option Object4 :=
  if oid < 0 then none else lookupSlot tbl oid.toNat

/-- `dbv4_valid`. -/
def dbv4_valid (tbl : V4Store) (oid : Objid) : Bool :=
  (dbv4_find_object tbl oid).isSome

/-- Modelled from the spec: `dbpriv_find_object` lives in db_objects.c (not
part of this repository section); per §3 of the spec valid ids are dense
`[0, N)`, so it is the same dense-slot lookup as the v4 table's. -/
def dbpriv_find_object (st : NGStore) (oid : Objid) : Option Object :=
  if oid < 0 then none else lookupSlot st oid.toNat

/-! ## Writer / checkpointer (dump_database): file-system trace model

`dump_database` manipulates the file system through `fopen`, `remove` and
`rename`.  The embedding represents the file system as a map from names to
optional byte contents and the child's execution as a list of operations;
killing the child at some instant is truncating the list. -/

abbrev FileData := List Nat

abbrev Fs := String → Option FileData

inductive FsOp where
  | removeF (n : String)
  | createF (n : String)
  | writeF (n : String) (d : FileData)
  | renameF (src dst : String)

/-- Effect of one file-system call.  `createF` is `fopen(-, "w")` (truncate
to empty), `writeF` is the cumulative effect of the serializer's writes,
`renameF` atomically replaces `dst` by `src`. -/
def applyOp (fs : Fs) : FsOp → Fs
  | .removeF n => fun x => if x = n then none else fs x
  | .createF n => fun x => if x = n then some [] else fs x
  | .writeF n d => fun x => if x = n then some d else fs x
  | .renameF a b => fun x => if x = b then fs a else if x = a then none else fs x

def runOps (fs : Fs) : List FsOp → Fs
  | [] => fs
  | op :: rest => runOps (applyOp fs op) rest

/-- The three dump-file names of one checkpoint attempt: the dump file `D`
(`dump_db_name`), the previous generation's temporary `D.#g#` and the new
temporary `D.#g+1#` (`stream_printf(s, "%s.#%d#", dump_db_name, ...)`). -/
structure DumpNames where
  D : String
  tempOld : String
  tempNew : String

def dumpNamesFor (dumpDbName : String) (gen : Nat) : DumpNames :=
  { D := dumpDbName
    tempOld := dumpDbName ++ ".#" ++ toString gen ++ "#"
    tempNew := dumpDbName ++ ".#" ++ toString (gen + 1) ++ "#" }

/-- The parent-side step taken before the fork: `remove` of the previous
generation's temporary. -/
def checkpointPrelude (nm : DumpNames) : List FsOp :=
  [.removeF nm.tempOld]

/-- File-system operations of the forked checkpoint child, from
`fopen(temp_name, "w")` to `exit`:
success path `fopen; writes; fflush/fsync/fclose; remove(D); rename(temp,D)`
(the fsync does not change contents, so it has no trace entry);
write-failure path `fopen; partial writes; fclose; remove(temp)`;
fopen-failure path: no operation. -/
def checkpointChildOps (nm : DumpNames) (fopenOk writeOk : Bool)
    (img partialImg : FileData) : List FsOp :=
  if fopenOk then
    if writeOk then
      [.createF nm.tempNew, .writeF nm.tempNew img, .removeF nm.D,
       .renameF nm.tempNew nm.D]
    else
      [.createF nm.tempNew, .writeF nm.tempNew partialImg, .removeF nm.tempNew]
  else []

/-- The checkpoint child's exit status: `exit(!success)`. -/
def checkpointChildExit (fopenOk writeOk : Bool) : Nat :=
  if fopenOk && writeOk then 0 else 1

/-- The three dump kinds (`Dump_Reason`). -/
inductive DumpReason where
  | shutdown
  | checkpoint
  | panic
deriving Repr, DecidableEq

/-- Outcome of one serialization attempt: did `fopen` succeed, did
`write_db_file` succeed. -/
structure DumpAttempt where
  fopenOk : Bool
  writeOk : Bool
deriving Repr, DecidableEq

inductive DumpResult where
  | success
  | failure
  | outOfAttempts
deriving Repr, DecidableEq

/-- The retry structure of `dump_database` (the `retryDumping` loop), as a
function of the sequence of attempt outcomes.  Returns the result and the
total seconds spent in `timer_sleep`.  On a `write_db_file` failure a
checkpoint abandons (`"Abandoning checkpoint attempt"`); every other reason
sleeps 60 seconds and retries; an `fopen` failure never retries. -/
def dump_database_loop : DumpReason → List DumpAttempt → DumpResult × Nat
  | _, [] => (.outOfAttempts, 0)
  | r, a :: rest =>
    if a.fopenOk then
      if a.writeOk then (.success, 0)
      else
        match r with
        | .checkpoint => (.failure, 0)
        | _ =>
          let p := dump_database_loop r rest
          (p.1, 60 + p.2)
    else (.failure, 0)

/-- Generation-counter update of one attempt: `dump_generation++` happens
for every non-panic attempt, before anything is written. -/
def dumpGenSucc (r : DumpReason) (gen : Nat) : Nat :=
  match r with
  | .panic => gen
  | _ => gen + 1

/-! ## db_disk_size -/

/-- `db_disk_size`: `stat` results are `some size` or `none` (failure).
The C condition is `(dump_generation == 0 || stat(dump_db_name,&st) < 0) &&
stat(input_db_name,&st) < 0`, with short-circuit evaluation: when
`dump_generation == 0` the dump file is never stat'ed at all. -/
def db_disk_size (gen : Nat) (statDump statInput : Option Nat) : Int :=
  match (if gen = 0 then none else statDump) with
  | some sz => Int.ofNat sz
  | none =>
    match statInput with
    | some sz => Int.ofNat sz
    | none => -1

/-! ## bf_exec -/

inductive MooErr where
  | E_ARGS
  | E_INVARG
  | E_EXEC
deriving Repr, DecidableEq

/-- Result of `bf_exec`: `errorPack` is `make_error_pack`, `raisePack` is
`make_raise_pack` (carrying the message and, for accounting, how many pipe
descriptors had been allocated and how many were closed on the failure
path), `suspended` is `make_suspend_pack` (six descriptors allocated, the
three child-side ends closed in the parent). -/
inductive ExecOutcome where
  | errorPack (e : MooErr)
  | raisePack (e : MooErr) (msg : String) (fdsAllocated fdsClosed : Nat)
  | suspended (path : String) (fdsAllocated fdsClosedInParent : Nat)
deriving Repr, DecidableEq

def invalidPathMsg : String := "Invalid path"

def doesNotExistMsg : String := "Does not exist"

def execFailedMsg : String := "Exec failed"

def isStr : Var → Bool
  | .str _ => true
  | _ => false

/-- The traversal check `1 < strlen(cmd) && '.' == cmd[0] && '.' == cmd[1]`. -/
def startsWithDotDot (cmd : String) : Bool :=
  match cmd.toList with
  | '.' :: '.' :: _ => true
  | _ => false

def hasSlashDotAux : List Char → Bool
  | [] => false
  | '/' :: '.' :: _ => true
  | _ :: rest => hasSlashDotAux rest

/-- The traversal check `strstr(cmd, "/.")`. -/
def hasSlashDot (cmd : String) : Bool :=
  hasSlashDotAux cmd.toList

/-- Path resolution: `BIN_SUBDIR` is prepended and one leading `/` is
dropped (`if('/' == cmd[0]) stream_add_string(s, cmd + 1)`). -/
def resolveExecPath (binSubdir cmd : String) : String :=
  binSubdir ++ (match cmd.toList with
                | '/' :: rest => String.mk rest
                | _ => cmd)

/-- `bf_exec`, as a function of the argument list and of oracles for the
outcomes of `stat`, the three `pipe` calls and `fork`.  The C checks every
element for string-ness first (returning `E_INVARG` at the first offender),
then rejects an empty list with `E_ARGS`. -/
def bf_exec (args : List Var) (binSubdir : String) (statOk : String → Bool)
    (pipeInOk pipeOutOk pipeErrOk forkOk : Bool) : ExecOutcome :=
  if args.any (fun a => !(isStr a)) then .errorPack .E_INVARG
  else
    match args with
    | [] => .errorPack .E_ARGS
    | .str cmd :: _ =>
      if startsWithDotDot cmd then .raisePack .E_INVARG invalidPathMsg 0 0
      else if hasSlashDot cmd then .raisePack .E_INVARG invalidPathMsg 0 0
      else
        let path := resolveExecPath binSubdir cmd
        if !(statOk path) then .raisePack .E_INVARG doesNotExistMsg 0 0
        else if !pipeInOk then .raisePack .E_EXEC execFailedMsg 0 0
        else if !pipeOutOk then .raisePack .E_EXEC execFailedMsg 2 2
        else if !pipeErrOk then .raisePack .E_EXEC execFailedMsg 4 4
        else if !forkOk then .raisePack .E_EXEC execFailedMsg 6 6
        else .suspended path 6 3
    | _ :: _ => .errorPack .E_INVARG

/-! ## exec_completed: the capture-buffer read -/

/-- `char buffer[1000]` in `exec_completed`. -/
def execBufSize : Nat := 1000

/-- Return value of `read(fd, buffer, requested)` on a pipe holding
`available` buffered bytes: `-1` on error, otherwise
`min available requested` (a single read, no loop). -/
def readResult (err : Bool) (available requested : Nat) : Int :=
  if err then -1 else Int.ofNat (min available requested)

/-- The index `n` at which `exec_completed` writes the NUL terminator
(`buffer[n] = '\0'` right after `n = read(tw->out, buffer, sizeof(buffer))`). -/
def exec_completed_nul_index (err : Bool) (available : Nat) : Int :=
  readResult err available execBufSize

/-! ## The v4 validator (v4_validate_hierarchies) -/

/-- Validity of a slot id, as tested by phase 1's `CHECK` macro.  In the C,
phase 1 mutates fields in place while iterating, but never changes which
slots hold objects, so a fixed existence oracle taken from the input table
is exact. -/
def v4validp (tbl : V4Store) : Objid → Bool :=
  fun x => (dbv4_find_object tbl x).isSome

/-- One `CHECK(field, name)` application of phase 1: a non-NOTHING id whose
target does not exist is nulled. -/
def v4fix (validp : Objid → Bool) (x : Objid) : Objid :=
  if x ≠ NOTHING ∧ validp x = false then NOTHING else x

def v4fixCount (validp : Objid → Bool) (x : Objid) : Nat :=
  if x ≠ NOTHING ∧ validp x = false then 1 else 0

/-- The legacy rule applied before the CHECKs: `if (o->location == NOTHING
&& o->next != NOTHING) o->next = NOTHING`. -/
def v4nextPre (o : Object4) : Objid :=
  if o.location = NOTHING ∧ o.next ≠ NOTHING then NOTHING else o.next

def v4nextPreCount (o : Object4) : Nat :=
  if o.location = NOTHING ∧ o.next ≠ NOTHING then 1 else 0

/-- Phase 1 repair of one live object: the location/next rule first, then
`CHECK` on parent, child, sibling, location, contents and (the already
pre-fixed) next. -/
def phase1RepairObj (v : Objid → Bool) (o : Object4) : Object4 :=
  { o with
    parent := v4fix v o.parent
    child := v4fix v o.child
    sibling := v4fix v o.sibling
    location := v4fix v o.location
    contents := v4fix v o.contents
    next := v4fix v (v4nextPre o) }

/-- Number of repairs (logged `errlog` fixes plus `fixed_nexts` increments)
phase 1 performs on one live object. -/
def phase1RepairCount (v : Objid → Bool) (o : Object4) : Nat :=
  v4nextPreCount o + v4fixCount v o.parent + v4fixCount v o.child +
  v4fixCount v o.sibling + v4fixCount v o.location + v4fixCount v o.contents +
  v4fixCount v (v4nextPre o)

/-- Phase 1 over the whole table.  Phase 1 never sets `broken`. -/
def v4_phase1 (tbl : V4Store) : V4Store :=
  tbl.map (Option.map (phase1RepairObj (v4validp tbl)))

/-- Total number of repairs phase 1 performs (= number of repair log
entries it produces). -/
def v4_phase1Count (tbl : V4Store) : Nat :=
  (tbl.map (fun s => s.elim 0 (phase1RepairCount (v4validp tbl)))).sum

/-- Phase 2's traversal counter: `chainSurvives tbl step fuel s` is true iff
the chain starting at `s` has at least `fuel + 1` non-NOTHING entries,
which with `fuel = size` is exactly the `++count > size` break that sets
`broken`.  (The C dereferences `dbv4_find_object(oid2)` unchecked; on a
table that passed phase 1 the `none` branch is unreachable.) -/
def chainSurvives (tbl : V4Store) (step : Object4 → Objid) :
    Nat → Objid → Bool
  | 0, s => if s = NOTHING then false else true
  | n + 1, s =>
    if s = NOTHING then false
    else
      match dbv4_find_object tbl s with
      | some o => chainSurvives tbl step n (step o)
      | none => false

/-- Phase 2 (`Check for cycles`) of the v4 validator: for every live
object, the parent chain from `o->parent`, the sibling chain from
`o->child`, the location chain from `o->location` and the next chain from
`o->contents` must each die out within `size` steps. -/
def v4_phase2ok (tbl : V4Store) : Bool :=
  tbl.all fun s =>
    s.elim true fun o =>
      !(chainSurvives tbl Object4.parent tbl.length o.parent ||
        chainSurvives tbl Object4.sibling tbl.length o.child ||
        chainSurvives tbl Object4.location tbl.length o.location ||
        chainSurvives tbl Object4.next tbl.length o.contents)

/-- The ordered id list collected by walking a `start → step → step → …`
chain, as done by the migrator's loops and phase 3's membership walks.
The C loop has no fuel and diverges on a cyclic chain; the embedding stops
after `fuel` nodes, which agrees with the C whenever the chain terminates
(on a validated store every chain dies out within `tbl.length` nodes).
The C also dereferences the slot unchecked; the embedding stops at a
missing slot. -/
def chainWalkList (tbl : V4Store) (step : Object4 → Objid) :
    Nat → Objid → List Objid
  | 0, _ => []
  | n + 1, s =>
    if s = NOTHING then []
    else
      match dbv4_find_object tbl s with
      | some o => s :: chainWalkList tbl step n (step o)
      | none => []

/-- Phase 3 consistency checks for one live object at id `oid`:
membership of `oid` in its parent's child list and its location's contents
list, and the reverse checks over its own child and contents lists.
(Phase 3 only runs after phase 2 has excluded cycles, so the fuel-bounded
walks agree with the C's unbounded ones there.) -/
def v4_phase3okObj (tbl : V4Store) (oid : Objid) (o : Object4) : Bool :=
  (if o.parent = NOTHING then true
   else
     match dbv4_find_object tbl o.parent with
     | some p =>
       decide (oid ∈ chainWalkList tbl Object4.sibling tbl.length p.child)
     | none => true) &&
  (if o.location = NOTHING then true
   else
     match dbv4_find_object tbl o.location with
     | some p =>
       decide (oid ∈ chainWalkList tbl Object4.next tbl.length p.contents)
     | none => true) &&
  ((chainWalkList tbl Object4.sibling tbl.length o.child).all fun c =>
     match dbv4_find_object tbl c with
     | some co => co.parent == oid
     | none => true) &&
  ((chainWalkList tbl Object4.next tbl.length o.contents).all fun c =>
     match dbv4_find_object tbl c with
     | some co => co.location == oid
     | none => true)

def v4_phase3ok (tbl : V4Store) : Bool :=
  (List.range tbl.length).all fun i =>
    match lookupSlot tbl i with
    | some o => v4_phase3okObj tbl (Int.ofNat i) o
    | none => true

/-- `v4_validate_hierarchies`: phase 1 repairs (never failing), then phase
2; a phase-2 failure returns immediately, otherwise phase 3 decides.
Returns (success, repaired table, number of phase-1 repairs). -/
def v4_validate_hierarchies (tbl : V4Store) : Bool × V4Store × Nat :=
  let t1 := v4_phase1 tbl
  let n := v4_phase1Count tbl
  if v4_phase2ok t1 then (v4_phase3ok t1, t1, n) else (false, t1, n)

/-! ## The migrator (v4_upgrade_objects) -/

/-- `new_obj` of the value system: an object-typed Var. -/
def new_obj (o : Objid) : Var := .obj o

/-- `var_dup` on the values the migrator builds (objects and fresh lists)
is the identity in a purely functional embedding. -/
def var_dup (v : Var) : Var := v

/-- Migration of the live v4 object in slot `i`: scalars are copied,
`parents` is a single object value wrapping the legacy parent, `children`
and `contents` are the sibling and next chain walks, `location` is an
object value, and the verb/prop payloads move over unchanged.
The fresh object's id is `i` because `dbpriv_new_object` (external to this
repository section; per the spec, ids are assigned in allocation order)
fills slots consecutively and the migrator visits slots in order. -/
def upgradeObj (tbl : V4Store) (i : Nat) (o : Object4) : Object :=
  { id := Int.ofNat i
    name := o.name
    flags := o.flags
    owner := o.owner
    parents := var_dup (new_obj o.parent)
    children := .list ((chainWalkList tbl Object4.sibling tbl.length o.child).map Var.obj)
    location := var_dup (new_obj o.location)
    contents := .list ((chainWalkList tbl Object4.next tbl.length o.contents).map Var.obj)
    verbdefs := o.verbdefs
    propdefs := o.propdefs
    propval := o.propval }

/-- Migration of slot `i`: a recycled v4 slot becomes a recycled live slot
(`dbpriv_new_recycled_object`). -/
def upgradeSlot (tbl : V4Store) (i : Nat) : Option Object :=
  (lookupSlot tbl i).map (upgradeObj tbl i)

/-- `v4_upgrade_objects`: every slot in order. -/
def v4_upgrade_objects (tbl : V4Store) : NGStore :=
  (List.range tbl.length).map (upgradeSlot tbl)

/-! ## The next-gen validator (ng_validate_hierarchies), phases 1 and 2 -/

/-- Modelled from the spec: the `is_obj` type test of the value layer
(not part of this repository section): `location` must be an object-id. -/
def is_obj : Var → Bool
  | .obj _ => true
  | _ => false

/-- Modelled from the spec: `is_list_of_objs`. -/
def is_list_of_objs : Var → Bool
  | .list l => l.all is_obj
  | _ => false

/-- Modelled from the spec: `is_obj_or_list_of_objs`. -/
def is_obj_or_list_of_objs (v : Var) : Bool :=
  is_obj v || is_list_of_objs v

/-- The structural type checks of ng phase 1 on one object; a violation is
fatal, not repairable. -/
def ngTypeOkObj (o : Object) : Bool :=
  is_obj_or_list_of_objs o.parents && is_list_of_objs o.children &&
  is_obj o.location && is_list_of_objs o.contents

def ngTypesOk (st : NGStore) : Bool :=
  st.all fun s => s.elim true ngTypeOkObj

def ngValidp (st : NGStore) : Objid → Bool :=
  fun x => (dbpriv_find_object st x).isSome

/-- Phase 1 repair of one relationship field.  For a list the C iterates
with `FOR_EACH` and drops each invalid non-NOTHING id with `setremove`
(both live outside this repository section; modelled from the spec:
"invalid ids inside list fields are removed"); a NOTHING element is kept.
For a scalar field an invalid non-NOTHING id is nulled.  The second
component counts the repairs. -/
def ngRepairVar (validp : Objid → Bool) (v : Var) : Var × Nat :=
  match v with
  | .list l =>
    let keep := l.filter fun e =>
      match e with
      | .obj t => t == NOTHING || validp t
      | _ => true
    (.list keep, l.length - keep.length)
  | .obj t => if t ≠ NOTHING ∧ validp t = false then (.obj NOTHING, 1) else (v, 0)
  | _ => (v, 0)

/-- Phase 1 repairs of one object: `CHECK(parents); CHECK(children);
CHECK(location); CHECK(contents)`. -/
def ngRepairObj (validp : Objid → Bool) (o : Object) : Object × Nat :=
  ({ o with
     parents := (ngRepairVar validp o.parents).1
     children := (ngRepairVar validp o.children).1
     location := (ngRepairVar validp o.location).1
     contents := (ngRepairVar validp o.contents).1 },
   (ngRepairVar validp o.parents).2 + (ngRepairVar validp o.children).2 +
   (ngRepairVar validp o.location).2 + (ngRepairVar validp o.contents).2)

/-- The per-object loop of ng phase 1, threading the `broken` flag exactly
as the C does: an object's repairs run only while no type error has been
seen on it or any earlier object. -/
def ngPhase1Go (validp : Objid → Bool) (broken : Bool) :
    List (Option Object) → Bool × List (Option Object) × Nat
  | [] => (broken, [], 0)
  | none :: rest =>
    let r := ngPhase1Go validp broken rest
    (r.1, none :: r.2.1, r.2.2)
  | some o :: rest =>
    let b1 := broken || !(ngTypeOkObj o)
    if b1 then
      let r := ngPhase1Go validp b1 rest
      (r.1, some o :: r.2.1, r.2.2)
    else
      let oc := ngRepairObj validp o
      let r := ngPhase1Go validp b1 rest
      (r.1, some oc.1 :: r.2.1, oc.2 + r.2.2)

/-- Phase 1 of `ng_validate_hierarchies`: (broken, repaired store, number
of repairs).  `broken = true` aborts the load. -/
def ng_phase1 (st : NGStore) : Bool × NGStore × Nat :=
  ngPhase1Go (ngValidp st) false st

def ngPhase1Store (st : NGStore) : NGStore := (ng_phase1 st).2.1

def ngPhase1Count (st : NGStore) : Nat := (ng_phase1 st).2.2

/-- Checker used to state idempotence: every non-NOTHING id inside the four
relationship fields of every live object exists. -/
def varRefsValid (validp : Objid → Bool) (v : Var) : Bool :=
  match v with
  | .list l =>
    l.all fun e =>
      match e with
      | .obj t => t == NOTHING || validp t
      | _ => true
  | .obj t => t == NOTHING || validp t
  | _ => true

def ngObjRefsValid (validp : Objid → Bool) (o : Object) : Bool :=
  varRefsValid validp o.parents && varRefsValid validp o.children &&
  varRefsValid validp o.location && varRefsValid validp o.contents

def ngAllRefsValid (st : NGStore) : Bool :=
  st.all fun s => s.elim true (ngObjRefsValid (ngValidp st))

/-- `enlist_var` of the value layer (outside this repository section;
modelled from the spec: a scalar becomes a one-element list). -/
def enlist_var (v : Var) : List Var :=
  match v with
  | .list l => l
  | _ => [v]

def objIdsOf (l : List Var) : List Objid :=
  l.filterMap fun v =>
    match v with
    | .obj t => some t
    | _ => none

/-- Successor relation of the ng parent graph: the non-NOTHING parent ids
of a live object. -/
def ngParentsOf (st : NGStore) (a : Objid) : List Objid :=
  match dbpriv_find_object st a with
  | some o => (objIdsOf (enlist_var o.parents)).filter fun t => t ≠ NOTHING
  | none => []

/-- Successor relation of the ng location graph. -/
def ngLocOf (st : NGStore) (a : Objid) : List Objid :=
  match dbpriv_find_object st a with
  | some o => (objIdsOf (enlist_var o.location)).filter fun t => t ≠ NOTHING
  | none => []

/-- All ids reachable from `a` in between 1 and `n` steps of `f`. -/
def reachUpTo (f : Objid → List Objid) : Nat → Objid → List Objid
  | 0, _ => []
  | n + 1, a => f a ++ (f a).flatMap (reachUpTo f n)

/-- Modelled from the spec: `db_ancestors` (an external graph helper)
computes the full ancestor set of an object; a path to an ancestor never
needs more than `st.length` steps, so the fuel-bounded reachable set is the
full one. -/
def db_ancestors (st : NGStore) (oid : Objid) : List Objid :=
  reachUpTo (ngParentsOf st) st.length oid

/-- Modelled from the spec: `db_all_locations`, the full enclosing-location
set. -/
def db_all_locations (st : NGStore) (oid : Objid) : List Objid :=
  reachUpTo (ngLocOf st) st.length oid

/-- Phase 2 of `ng_validate_hierarchies`: an object is broken iff its own
id is a member (`ismember`) of its full ancestor set or of its full
enclosing-location set. -/
def ng_phase2ok (st : NGStore) : Bool :=
  (List.range st.length).all fun i =>
    match lookupSlot st i with
    | some _ =>
      !(decide (Int.ofNat i ∈ db_ancestors st (Int.ofNat i)) ||
        decide (Int.ofNat i ∈ db_all_locations st (Int.ofNat i)))
    | none => true

/-! ## Cycle vocabulary

The mathematical side of claim C5: a cycle in a successor relation
`f : Objid → List Objid` is a nonempty `List.Chain` that returns to its
start. -/

def StepRel (f : Objid → List Objid) (a b : Objid) : Prop := b ∈ f a

/-- Some chain of `f`-steps leads from `x` back to `x` in at least one
step. -/
def HasCycleAt (f : Objid → List Objid) (x : Objid) : Prop :=
  ∃ l, List.Chain (StepRel f) x (l ++ [x])

def HasCycle (f : Objid → List Objid) : Prop :=
  ∃ x, HasCycleAt f x

/-- `x` is reachable from `s` in zero or more `f`-steps. -/
def ReachesFrom (f : Objid → List Objid) (s x : Objid) : Prop :=
  s = x ∨ ∃ l, List.Chain (StepRel f) s (l ++ [x])

/-- Some node on a cycle is reachable from `s`. -/
def ReachesCycle (f : Objid → List Objid) (s : Objid) : Prop :=
  ∃ x, ReachesFrom f s x ∧ HasCycleAt f x

/-- The single-successor relation induced by one intrusive v4 chain field:
`step o` if it is not NOTHING, nothing otherwise. -/
def v4succ (tbl : V4Store) (step : Object4 → Objid) (a : Objid) : List Objid :=
  match dbv4_find_object tbl a with
  | some o => if step o = NOTHING then [] else [step o]
  | none => []

/-- Position `n` of a v4 chain: `some t` if the chain reaches position `n`
holding id `t` (possibly NOTHING), `none` if it ended (or fell off a
missing slot) strictly earlier. -/
def chainNth (tbl : V4Store) (step : Object4 → Objid) :
    Nat → Objid → Option Objid
  | 0, s => some s
  | n + 1, s =>
    if s = NOTHING then none
    else
      match dbv4_find_object tbl s with
      | some o => chainNth tbl step n (step o)
      | none => none

/-- Boolean per-object reference validity used as the "passed phase 1"
hypothesis of claim C5. -/
def validOrNothing (tbl : V4Store) (x : Objid) : Bool :=
  x == NOTHING || (dbv4_find_object tbl x).isSome

def refValidObj (tbl : V4Store) (o : Object4) : Bool :=
  validOrNothing tbl o.parent && validOrNothing tbl o.child &&
  validOrNothing tbl o.sibling && validOrNothing tbl o.location &&
  validOrNothing tbl o.contents && validOrNothing tbl o.next

/-- Every reference of every live object is valid-or-NOTHING: exactly the
state phase 1 establishes. -/
def v4RefsValid (tbl : V4Store) : Bool :=
  tbl.all fun s => s.elim true (refValidObj tbl)

/-- The finite set of live slot ids of a store. -/
def liveIds {α : Type} (l : List (Option α)) : Finset Int :=
  ((List.range l.length).filterMap fun i =>
    match lookupSlot l i with
    | some _ => some (Int.ofNat i)
    | none => none).toFinset

/-! ## Concrete stores and names used by witnesses and counterexamples -/

def exDbName : String := "minimal.db"

def exImg : FileData := [1, 2, 3]

def exOldDump : FileData := [9, 9]

/-- A file system holding only the dump file `D` with its pre-checkpoint
contents. -/
def exFs : Fs := fun x => if x = exDbName then some exOldDump else none

/-- Shorthand for a v4 object with given chain fields and trivial payload. -/
def mkObj4 (parent child sibling location contents next : Objid) : Object4 :=
  { id := 0, owner := 0, location := location, contents := contents
    next := next, parent := parent, child := child, sibling := sibling
    name := "o", flags := 0, verbdefs := [], propdefs := [], propval := [] }

/-- Spec scenario: a v4 tree of three objects, #0 root (child = 1),
#1 (parent = 0, sibling = 2), #2 (parent = 0). -/
def exTree : V4Store :=
  [some (mkObj4 (-1) 1 (-1) (-1) (-1) (-1)),
   some (mkObj4 0 (-1) 2 (-1) (-1) (-1)),
   some (mkObj4 0 (-1) (-1) (-1) (-1) (-1))]

/-- Spec scenario: one object with a dangling `parent = #7`. -/
def exDangling : V4Store :=
  [some (mkObj4 7 (-1) (-1) (-1) (-1) (-1))]

/-- One object whose `location` dangles (#5) while `next` points at the
valid #0: the first validator run nulls `location`, the second run's
location/next rule then fires. -/
def exNextFix : V4Store :=
  [some (mkObj4 (-1) (-1) (-1) 5 (-1) 0)]

/-- One object that is its own sibling and is reachable from its own
`child` pointer: a cycle in the sibling chain with no parent or location
cycle. -/
def exSibLoop : V4Store :=
  [some (mkObj4 (-1) 0 0 (-1) (-1) (-1))]

/-- A reference-valid single-object store with every chain field NOTHING. -/
def exInert : V4Store :=
  [some (mkObj4 (-1) (-1) (-1) (-1) (-1) (-1))]

/-- A minimal well-typed next-gen store. -/
def exNgInert : NGStore :=
  [some { id := 0, name := "o", flags := 0, owner := 0
          location := .obj (-1), contents := .list []
          parents := .list [], children := .list []
          verbdefs := [], propdefs := [], propval := [] }]

/-- A next-gen store whose only object carries a dangling parent id inside
its `parents` list. -/
def exNgDangling : NGStore :=
  [some { id := 0, name := "o", flags := 0, owner := 0
          location := .obj (-1), contents := .list []
          parents := .list [.obj 4], children := .list []
          verbdefs := [], propdefs := [], propval := [] }]

def exBin : String := "bin/"

/-! # Theorems -/

/-! ## Naming facts for the dump protocol -/

theorem dumpNamesFor_D_ne (dn : String) (g : Nat) :
    (dumpNamesFor dn g).D ≠ (dumpNamesFor dn g).tempOld ∧
    (dumpNamesFor dn g).D ≠ (dumpNamesFor dn g).tempNew := by
  have hs : (".#" : String).length = 2 := rfl
  have hh : ("#" : String).length = 1 := rfl
  constructor <;>
    · intro h
      have hl := congrArg String.length h
      simp only [dumpNamesFor, String.length_append, hs, hh] at hl
      omega

/-! ## Claim C1: checkpoint atomicity -/

/-- Claim C1, counterexample: the checkpoint child executes
`remove(dump_db_name)` and only then `rename(temp_name, dump_db_name)`
(db_file.c lines 1138-1139).  A child killed after the `remove` but
strictly before the final `rename` leaves no dump file at all, so `D` is
not byte-identical to its pre-checkpoint contents. -/
theorem c1_counterexample :
    runOps exFs
        ((checkpointChildOps (dumpNamesFor exDbName 0) true true exImg []).take 3)
        (dumpNamesFor exDbName 0).D = none ∧
    exFs (dumpNamesFor exDbName 0).D = some exOldDump ∧
    none ≠ some exOldDump := by
  refine ⟨by decide, by decide, by decide⟩

/-- Claim C1 (amended): if the checkpoint child is killed strictly before
the `remove` of `D` that immediately precedes the final rename (i.e. during
the first two child steps: opening and writing the temporary), `D` is
byte-identical to its pre-checkpoint contents; a child whose serialization
(or `fopen`) fails exits nonzero and leaves the old `D` untouched; the
parent's pre-fork removal of the previous generation's temporary never
touches `D`; and a fully successful child replaces `D` by the new image. -/
theorem c1_amended (dn : String) (g : Nat) (fs : Fs) (img pimg : FileData)
    (fopenOk writeOk : Bool) (k : Nat) :
    (k ≤ 2 →
      runOps fs ((checkpointChildOps (dumpNamesFor dn g) fopenOk writeOk img pimg).take k)
        (dumpNamesFor dn g).D = fs (dumpNamesFor dn g).D) ∧
    (fopenOk = false ∨ writeOk = false →
      checkpointChildExit fopenOk writeOk ≠ 0 ∧
      runOps fs (checkpointChildOps (dumpNamesFor dn g) fopenOk writeOk img pimg)
        (dumpNamesFor dn g).D = fs (dumpNamesFor dn g).D) ∧
    (runOps fs (checkpointPrelude (dumpNamesFor dn g)) (dumpNamesFor dn g).D
      = fs (dumpNamesFor dn g).D) ∧
    (runOps fs (checkpointChildOps (dumpNamesFor dn g) true true img pimg)
        (dumpNamesFor dn g).D = some img) := by
  obtain ⟨h1, h2⟩ := dumpNamesFor_D_ne dn g
  have h2s : (dumpNamesFor dn g).tempNew ≠ (dumpNamesFor dn g).D := h2.symm
  refine ⟨?_, ?_, ?_, ?_⟩
  · intro hk
    cases fopenOk <;> cases writeOk <;>
      · interval_cases k <;> simp [checkpointChildOps, runOps, applyOp, h2]
  · intro h
    constructor
    · rcases h with h | h <;> subst h <;> simp [checkpointChildExit]
    · rcases h with h | h <;> subst h
      · simp [checkpointChildOps, runOps]
      · cases fopenOk <;> simp [checkpointChildOps, runOps, applyOp, h2]
  · simp [checkpointPrelude, runOps, applyOp, h1]
  · simp [checkpointChildOps, runOps, applyOp, h2, h2s]

/-- Witness for `c1_amended` at a concrete file system and instant. -/
theorem c1_amended_witness :
    (2 ≤ 2 ∧ (false = false ∨ (true : Bool) = false)) ∧
    (runOps exFs ((checkpointChildOps (dumpNamesFor exDbName 0) true true exImg []).take 2)
        (dumpNamesFor exDbName 0).D = exFs (dumpNamesFor exDbName 0).D) ∧
    (checkpointChildExit false true ≠ 0 ∧
      runOps exFs (checkpointChildOps (dumpNamesFor exDbName 0) false true exImg [])
        (dumpNamesFor exDbName 0).D = exFs (dumpNamesFor exDbName 0).D) :=
  ⟨⟨by decide, by decide⟩,
   (c1_amended exDbName 0 exFs exImg [] true true 2).1 (by decide),
   (c1_amended exDbName 0 exFs exImg [] false true 2).2.1 (by decide)⟩

/-! ## Claim C2: retry policy by dump kind -/

/-- Claim C2, counterexample: the retry test in db_file.c line 1121 is
`reason == DUMP_CHECKPOINT`; every other reason, including `DUMP_PANIC`,
sleeps 60 seconds and retries.  A panic dump whose first serialization
fails retries (and here succeeds on the second attempt) instead of giving
up. -/
theorem c2_counterexample :
    dump_database_loop .panic [⟨true, false⟩, ⟨true, true⟩] = (.success, 60) ∧
    (60 : Nat) ≠ 0 := by
  refine ⟨by decide, by decide⟩

/-- Claim C2 (amended): on a "dbio failed" serialization failure a
checkpoint abandons with no retry (and the temporary is removed); both a
shutdown dump and a panic dump sleep 60 seconds and retry the whole dump;
an `fopen` failure fails without retry for every kind. -/
theorem c2_amended (rest : List DumpAttempt) (r : DumpReason)
    (dn : String) (g : Nat) (fs : Fs) (img pimg : FileData) :
    (dump_database_loop .checkpoint (⟨true, false⟩ :: rest) = (.failure, 0)) ∧
    (r ≠ .checkpoint →
      dump_database_loop r (⟨true, false⟩ :: rest) =
        ((dump_database_loop r rest).1, 60 + (dump_database_loop r rest).2)) ∧
    (dump_database_loop r (⟨true, true⟩ :: rest) = (.success, 0)) ∧
    (∀ w, dump_database_loop r (⟨false, w⟩ :: rest) = (.failure, 0)) ∧
    (runOps fs (checkpointChildOps (dumpNamesFor dn g) true false img pimg)
        (dumpNamesFor dn g).tempNew = none) := by
  refine ⟨rfl, ?_, ?_, fun w => ?_, ?_⟩
  · intro h
    cases r with
    | checkpoint => exact absurd rfl h
    | shutdown => rfl
    | panic => rfl
  · cases r <;> rfl
  · cases r <;> rfl
  · simp [checkpointChildOps, runOps, applyOp]

/-- Witness for `c2_amended`: a shutdown dump whose first attempt fails
sleeps 60 seconds and retries. -/
theorem c2_amended_witness :
    DumpReason.shutdown ≠ DumpReason.checkpoint ∧
    dump_database_loop .shutdown [⟨true, false⟩, ⟨true, true⟩] =
      ((dump_database_loop .shutdown [⟨true, true⟩]).1,
        60 + (dump_database_loop .shutdown [⟨true, true⟩]).2) :=
  ⟨by decide,
   (c2_amended [⟨true, true⟩] .shutdown exDbName 0 exFs exImg []).2.1 (by decide)⟩

/-! ## Claim C8: db_disk_size -/

/-- Claim C8, counterexample: before any dump (`dump_generation == 0`) the
dump file is never stat'ed (short-circuit in db_file.c line 1245), so when
the input file cannot be stat'ed the function returns -1 even though the
dump file exists and could be stat'ed. -/
theorem c8_counterexample :
    db_disk_size 0 (some 42) none = -1 ∧ (some 42 : Option Nat) ≠ none := by
  refine ⟨by decide, by decide⟩

/-- Claim C8 (amended): `db_disk_size` returns the size of `D` when
`dump_generation > 0` (at least one non-panic dump was started, not
necessarily completed) and `D` can be stat'ed; otherwise it returns the
size of the input file when that can be stat'ed; it returns -1 exactly
when that fallback fails, i.e. when (`generation = 0` or `D` cannot be
stat'ed) and the input file cannot be stat'ed.  Every non-panic dump
attempt increments the generation counter. -/
theorem c8_amended (gen : Nat) (sD sI : Option Nat) :
    (gen ≠ 0 → ∀ n, sD = some n → db_disk_size gen sD sI = Int.ofNat n) ∧
    ((gen = 0 ∨ sD = none) → ∀ n, sI = some n → db_disk_size gen sD sI = Int.ofNat n) ∧
    (db_disk_size gen sD sI = -1 ↔ ((gen = 0 ∨ sD = none) ∧ sI = none)) ∧
    (∀ g, dumpGenSucc .checkpoint g ≠ 0 ∧ dumpGenSucc .shutdown g ≠ 0 ∧
      dumpGenSucc .panic g = g) := by
  refine ⟨?_, ?_, ?_, fun g => ⟨by simp [dumpGenSucc], by simp [dumpGenSucc], rfl⟩⟩
  · intro hg n hn
    subst hn
    simp [db_disk_size, hg]
  · intro h n hn
    subst hn
    rcases h with h | h
    · simp [db_disk_size, h]
    · subst h
      simp [db_disk_size]
  · rcases sD with _ | a <;> rcases sI with _ | b <;>
      by_cases hg : gen = 0 <;> simp [db_disk_size, hg]

/-- Witness for `c8_amended`: after the first dump attempt, a stat-able `D`
wins. -/
theorem c8_amended_witness :
    (1 : Nat) ≠ 0 ∧ db_disk_size 1 (some 5) none = Int.ofNat 5 :=
  ⟨by decide, (c8_amended 1 (some 5) none).1 (by decide) 5 rfl⟩

/-! ## Claim C9: bf_exec argument and path errors -/

/-- Claim C9: an empty argument list raises `E_ARGS`; a list with a
non-string element raises `E_INVARG`; a command starting with `..` or
containing `/.` raises `E_INVARG` with "Invalid path"; otherwise the path
is resolved against `BIN_SUBDIR` with one leading `/` stripped and a
failing `stat` raises `E_INVARG` with "Does not exist"; a pipe or fork
failure raises `E_EXEC` with every descriptor allocated so far closed. -/
theorem c9_bf_exec_errors (binSubdir : String) (statOk : String → Bool) :
    (∀ p1 p2 p3 fk : Bool,
      bf_exec [] binSubdir statOk p1 p2 p3 fk = .errorPack .E_ARGS) ∧
    (∀ (args : List Var) (p1 p2 p3 fk : Bool), (∃ a ∈ args, isStr a = false) →
      bf_exec args binSubdir statOk p1 p2 p3 fk = .errorPack .E_INVARG) ∧
    (∀ (cmd : String) (rest : List Var) (p1 p2 p3 fk : Bool),
      (∀ a ∈ rest, isStr a = true) →
      (startsWithDotDot cmd = true ∨ hasSlashDot cmd = true) →
      bf_exec (.str cmd :: rest) binSubdir statOk p1 p2 p3 fk =
        .raisePack .E_INVARG invalidPathMsg 0 0) ∧
    (∀ (cmd : String) (rest : List Var) (p1 p2 p3 fk : Bool),
      (∀ a ∈ rest, isStr a = true) →
      startsWithDotDot cmd = false → hasSlashDot cmd = false →
      statOk (resolveExecPath binSubdir cmd) = false →
      bf_exec (.str cmd :: rest) binSubdir statOk p1 p2 p3 fk =
        .raisePack .E_INVARG doesNotExistMsg 0 0) ∧
    (∀ (cmd : String) (rest : List Var) (p1 p2 p3 fk : Bool),
      (∀ a ∈ rest, isStr a = true) →
      startsWithDotDot cmd = false → hasSlashDot cmd = false →
      statOk (resolveExecPath binSubdir cmd) = true →
      (p1 = false ∨ p2 = false ∨ p3 = false ∨ fk = false) →
      ∃ alloc, bf_exec (.str cmd :: rest) binSubdir statOk p1 p2 p3 fk =
        .raisePack .E_EXEC execFailedMsg alloc alloc) ∧
    (∀ l : List Char,
      resolveExecPath binSubdir (String.mk ('/' :: l)) = binSubdir ++ String.mk l) := by
  have hany : ∀ (cmd : String) (rest : List Var), (∀ a ∈ rest, isStr a = true) →
      (Var.str cmd :: rest).any (fun a => !(isStr a)) = false := by
    intro cmd rest hstr
    simp only [List.any_eq_false]
    intro a ha
    rcases List.mem_cons.mp ha with h | h
    · subst h; simp [isStr]
    · simp [hstr a h]
  refine ⟨fun _ _ _ _ => rfl, ?_, ?_, ?_, ?_, fun l => rfl⟩
  · intro args p1 p2 p3 fk ⟨a, ha, hs⟩
    have : args.any (fun a => !(isStr a)) = true :=
      List.any_eq_true.mpr ⟨a, ha, by simp [hs]⟩
    cases args with
    | nil => cases ha
    | cons b bs =>
      cases b <;> simp_all [bf_exec, isStr]
  · intro cmd rest p1 p2 p3 fk hstr hpath
    rcases hpath with h | h
    · simp [bf_exec, hany cmd rest hstr, h]
    · cases hdd : startsWithDotDot cmd <;>
        simp [bf_exec, hany cmd rest hstr, h, hdd]
  · intro cmd rest p1 p2 p3 fk hstr hdd hsd hst
    simp [bf_exec, hany cmd rest hstr, hdd, hsd, hst]
  · intro cmd rest p1 p2 p3 fk hstr hdd hsd hst hfail
    cases p1 <;> cases p2 <;> cases p3 <;> cases fk <;>
      simp_all [bf_exec, hany cmd rest hstr, hdd, hsd, hst]

/-- Witness for `c9_bf_exec_errors` at concrete inputs. -/
theorem c9_bf_exec_errors_witness :
    (∃ a ∈ [Var.int 0], isStr a = false) ∧
    bf_exec [Var.int 0] exBin (fun _ => false) true true true true =
      .errorPack .E_INVARG :=
  ⟨by decide,
   (c9_bf_exec_errors exBin (fun _ => false)).2.1 [Var.int 0] true true true true
     (by decide)⟩

/-! ## Claim C10: the exec_completed capture buffer -/

/-- Claim C10 refuted (code bug): `read(tw->out, buffer, sizeof(buffer))`
can return exactly `sizeof(buffer) = 1000` when at least 1000 bytes are
buffered, so `buffer[n] = '\0'` writes one byte past the 1000-byte buffer;
on a read error it returns -1 and the store goes one byte before it. -/
theorem c10_nul_index_out_of_bounds :
    exec_completed_nul_index false 1500 = Int.ofNat execBufSize ∧
    ¬(exec_completed_nul_index false 1500 < Int.ofNat execBufSize) ∧
    exec_completed_nul_index true 700 = -1 ∧
    ¬(0 ≤ exec_completed_nul_index true 700) := by
  refine ⟨by decide, by decide, by decide, by decide⟩

/-! ## Lookup facts -/

theorem lookupSlot_eq_getElem {α : Type} :
    ∀ (l : List (Option α)) (n : Nat), lookupSlot l n = l[n]?.getD none
  | [], n => by simp [lookupSlot]
  | s :: rest, 0 => by simp [lookupSlot]
  | s :: rest, n + 1 => by simpa [lookupSlot] using lookupSlot_eq_getElem rest n

theorem lookupSlot_map {α β : Type} (f : α → β) (l : List (Option α)) (n : Nat) :
    lookupSlot (l.map (Option.map f)) n = (lookupSlot l n).map f := by
  rw [lookupSlot_eq_getElem, lookupSlot_eq_getElem, List.getElem?_map]
  cases l[n]? <;> rfl

theorem lookupSlot_range_map {α : Type} (f : Nat → Option α) (n i : Nat)
    (h : i < n) : lookupSlot ((List.range n).map f) i = f i := by
  rw [lookupSlot_eq_getElem, List.getElem?_map, List.getElem?_range h]
  rfl

theorem lookupSlot_lt_length {α : Type} {l : List (Option α)} {n : Nat} {x : α}
    (h : lookupSlot l n = some x) : n < l.length := by
  by_contra hn
  rw [lookupSlot_eq_getElem, List.getElem?_eq_none (by omega)] at h
  cases h

theorem lookupSlot_mem {α : Type} {l : List (Option α)} {n : Nat} {x : α}
    (h : lookupSlot l n = some x) : some x ∈ l := by
  rw [lookupSlot_eq_getElem] at h
  cases he : l[n]? with
  | none => rw [he] at h; cases h
  | some s =>
    rw [he] at h
    simp only [Option.getD_some] at h
    subst h
    exact List.getElem?_mem he

/-! ## Claims C3 and C4: the migrator -/

/-- Claim C3, counterexample: `v4_upgrade_objects` sets
`new->parents = var_dup(new_obj(o->parent))` (db_file.c:814), a scalar
object value, never a list: for a legacy parent of NOTHING the migrated
`parents` is the object value NOTHING, which is neither the one-element
list the claim states nor an empty list. -/
theorem c3_counterexample :
    lookupSlot exTree 0 = some (mkObj4 (-1) 1 (-1) (-1) (-1) (-1)) ∧
    (mkObj4 (-1) 1 (-1) (-1) (-1) (-1)).parent = NOTHING ∧
    upgradeSlot exTree 0 = some (upgradeObj exTree 0 (mkObj4 (-1) 1 (-1) (-1) (-1) (-1))) ∧
    (upgradeObj exTree 0 (mkObj4 (-1) 1 (-1) (-1) (-1) (-1))).parents = Var.obj NOTHING ∧
    Var.obj NOTHING ≠ Var.list [Var.obj NOTHING] ∧
    Var.obj NOTHING ≠ Var.list [] :=
  ⟨rfl, rfl, rfl, rfl, fun h => Var.noConfusion h, fun h => Var.noConfusion h⟩

/-- Claim C3 (amended): for every v4 object migrated to the live store,
`parents` is the single object value wrapping the legacy parent id — the
scalar alternative of the parents variant, not a list; in particular for a
legacy parent of NOTHING it is the object value NOTHING (still not an
empty list). -/
theorem c3_amended (tbl : V4Store) (i : Nat) (o : Object4)
    (h : lookupSlot tbl i = some o) :
    upgradeSlot tbl i = some (upgradeObj tbl i o) ∧
    (upgradeObj tbl i o).parents = Var.obj o.parent ∧
    (o.parent = NOTHING → (upgradeObj tbl i o).parents = Var.obj NOTHING) := by
  refine ⟨by simp [upgradeSlot, h], rfl, fun hp => ?_⟩
  simp [upgradeObj, var_dup, new_obj, hp]

/-- Witness for `c3_amended`: object #1 of the three-object tree keeps its
legacy parent #0 as a scalar object value. -/
theorem c3_amended_witness :
    lookupSlot exTree 1 = some (mkObj4 0 (-1) 2 (-1) (-1) (-1)) ∧
    (upgradeObj exTree 1 (mkObj4 0 (-1) 2 (-1) (-1) (-1))).parents = Var.obj 0 :=
  ⟨rfl, (c3_amended exTree 1 (mkObj4 0 (-1) 2 (-1) (-1) (-1)) rfl).2.1⟩

/-- Claim C4: migration preserves slot-by-slot existence, id, name, flags
and owner; a recycled v4 slot stays recycled at the same index; a live v4
object becomes a live object at the same id whose `children` is the
child-then-sibling walk, whose `contents` is the contents-then-next walk,
whose `location` is an object value wrapping the legacy location, and whose
verb/prop payloads move over unchanged. -/
theorem c4_migration_preserves (tbl : V4Store) (i : Nat) (h : i < tbl.length) :
    lookupSlot (v4_upgrade_objects tbl) i = (lookupSlot tbl i).map (upgradeObj tbl i) ∧
    (v4_upgrade_objects tbl).length = tbl.length ∧
    (lookupSlot tbl i = none → lookupSlot (v4_upgrade_objects tbl) i = none) ∧
    (∀ o, lookupSlot tbl i = some o →
      ∃ n, lookupSlot (v4_upgrade_objects tbl) i = some n ∧
        n.id = Int.ofNat i ∧ n.name = o.name ∧ n.flags = o.flags ∧ n.owner = o.owner ∧
        n.children = Var.list
          ((chainWalkList tbl Object4.sibling tbl.length o.child).map Var.obj) ∧
        n.contents = Var.list
          ((chainWalkList tbl Object4.next tbl.length o.contents).map Var.obj) ∧
        n.location = Var.obj o.location ∧
        n.verbdefs = o.verbdefs ∧ n.propdefs = o.propdefs ∧ n.propval = o.propval) := by
  have hbase : lookupSlot (v4_upgrade_objects tbl) i = upgradeSlot tbl i :=
    lookupSlot_range_map (upgradeSlot tbl) tbl.length i h
  refine ⟨?_, ?_, ?_, ?_⟩
  · rw [hbase]; rfl
  · simp [v4_upgrade_objects]
  · intro hn
    rw [hbase]
    simp [upgradeSlot, hn]
  · intro o ho
    refine ⟨upgradeObj tbl i o, ?_, rfl, rfl, rfl, rfl, rfl, rfl, rfl, rfl, rfl, rfl⟩
    rw [hbase]
    simp [upgradeSlot, ho]

/-- Witness for `c4_migration_preserves` on the three-object tree. -/
theorem c4_migration_preserves_witness :
    0 < exTree.length ∧
    lookupSlot (v4_upgrade_objects exTree) 0 =
      (lookupSlot exTree 0).map (upgradeObj exTree 0) ∧
    (v4_upgrade_objects exTree).length = exTree.length :=
  ⟨by decide, (c4_migration_preserves exTree 0 (by decide)).1,
   (c4_migration_preserves exTree 0 (by decide)).2.1⟩

/-! ## Phase-1 repair facts -/

theorem v4fix_of_ok (v : Objid → Bool) (x : Objid)
    (h : x = NOTHING ∨ v x = true) :
    v4fix v x = x ∧ v4fixCount v x = 0 := by
  unfold v4fix v4fixCount
  split_ifs with hc
  · rcases h with h | h
    · exact absurd h hc.1
    · rw [hc.2] at h; cases h
  · exact ⟨rfl, rfl⟩

theorem v4fix_ok (v : Objid → Bool) (x : Objid) :
    v4fix v x = NOTHING ∨ v (v4fix v x) = true := by
  unfold v4fix
  split_ifs with hc
  · exact Or.inl rfl
  · rcases not_and_or.mp hc with h | h
    · exact Or.inl (not_not.mp h)
    · exact Or.inr (by revert h; cases v x <;> simp)

theorem v4fix_count_zero (v : Objid → Bool) (x : Objid) :
    v4fixCount v x = 0 ↔ v4fix v x = x := by
  unfold v4fixCount v4fix
  split_ifs with h
  · constructor
    · intro h10; cases h10
    · intro he; exact absurd he.symm h.1
  · simp

theorem phase1RepairObj_eq_self (v : Objid → Bool) (o : Object4)
    (hp : v4fix v o.parent = o.parent) (hc : v4fix v o.child = o.child)
    (hs : v4fix v o.sibling = o.sibling) (hl : v4fix v o.location = o.location)
    (hco : v4fix v o.contents = o.contents)
    (hn : v4fix v (v4nextPre o) = o.next) :
    phase1RepairObj v o = o := by
  unfold phase1RepairObj
  rw [hp, hc, hs, hl, hco, hn]

theorem phase1RepairCount_zero_iff (v : Objid → Bool) (o : Object4) :
    phase1RepairCount v o = 0 ↔ phase1RepairObj v o = o := by
  constructor
  · intro h
    unfold phase1RepairCount at h
    have h1 : v4nextPreCount o = 0 := by omega
    have h2 : v4fixCount v o.parent = 0 := by omega
    have h3 : v4fixCount v o.child = 0 := by omega
    have h4 : v4fixCount v o.sibling = 0 := by omega
    have h5 : v4fixCount v o.location = 0 := by omega
    have h6 : v4fixCount v o.contents = 0 := by omega
    have h7 : v4fixCount v (v4nextPre o) = 0 := by omega
    have hpre : v4nextPre o = o.next := by
      unfold v4nextPre
      unfold v4nextPreCount at h1
      split_ifs with hc
      · rw [if_pos hc] at h1; cases h1
      · rfl
    refine phase1RepairObj_eq_self v o ((v4fix_count_zero v _).mp h2)
      ((v4fix_count_zero v _).mp h3) ((v4fix_count_zero v _).mp h4)
      ((v4fix_count_zero v _).mp h5) ((v4fix_count_zero v _).mp h6) ?_
    rw [hpre] at h7 ⊢
    exact (v4fix_count_zero v _).mp h7
  · intro h
    have hp := congrArg Object4.parent h
    have hc := congrArg Object4.child h
    have hs := congrArg Object4.sibling h
    have hl := congrArg Object4.location h
    have hco := congrArg Object4.contents h
    have hn := congrArg Object4.next h
    simp only [phase1RepairObj] at hp hc hs hl hco hn
    have hpre0 : v4nextPreCount o = 0 ∧ v4nextPre o = o.next := by
      unfold v4nextPreCount v4nextPre
      split_ifs with hcnd
      · exfalso
        unfold v4nextPre at hn
        rw [if_pos hcnd] at hn
        have : v4fix v NOTHING = NOTHING := by unfold v4fix; simp
        rw [this] at hn
        exact hcnd.2 hn.symm
      · exact ⟨rfl, rfl⟩
    have e1 : v4nextPreCount o = 0 := hpre0.1
    have e2 : v4fixCount v o.parent = 0 := (v4fix_count_zero v _).mpr hp
    have e3 : v4fixCount v o.child = 0 := (v4fix_count_zero v _).mpr hc
    have e4 : v4fixCount v o.sibling = 0 := (v4fix_count_zero v _).mpr hs
    have e5 : v4fixCount v o.location = 0 := (v4fix_count_zero v _).mpr hl
    have e6 : v4fixCount v o.contents = 0 := (v4fix_count_zero v _).mpr hco
    have e7 : v4fixCount v (v4nextPre o) = 0 := by
      rw [hpre0.2]
      refine (v4fix_count_zero v _).mpr ?_
      rw [hpre0.2] at hn
      exact hn
    unfold phase1RepairCount
    omega

theorem dbv4_find_phase1 (tbl : V4Store) (i : Objid) :
    dbv4_find_object (v4_phase1 tbl) i =
      (dbv4_find_object tbl i).map (phase1RepairObj (v4validp tbl)) := by
  unfold dbv4_find_object v4_phase1
  by_cases h : i < 0
  · simp [h]
  · simp [h, lookupSlot_map]

theorem v4_validate_eq (tbl : V4Store) :
    (v4_validate_hierarchies tbl).1 =
      (v4_phase2ok (v4_phase1 tbl) && v4_phase3ok (v4_phase1 tbl)) := by
  unfold v4_validate_hierarchies
  cases h2 : v4_phase2ok (v4_phase1 tbl) <;> simp [h2]

/-! ## Claim C6: v4 phase 1 repairs, and they never fail the load -/

/-- Claim C6: in v4 phase 1, an object whose `location` is NOTHING gets its
`next` forced to NOTHING; each of the six chain fields that is non-NOTHING
and refers to a non-existent object is nulled; the repair counter is zero
exactly when the object is left unchanged (every repair is logged); repairs
land in the table phase 2 then sees; and the validator's verdict is decided
by phases 2 and 3 alone — phase 1 never fails the load. -/
theorem c6_phase1_repairs (tbl : V4Store) (i : Objid) (o : Object4)
    (h : dbv4_find_object tbl i = some o) :
    (o.location = NOTHING → (phase1RepairObj (v4validp tbl) o).next = NOTHING) ∧
    (o.parent ≠ NOTHING → dbv4_find_object tbl o.parent = none →
      (phase1RepairObj (v4validp tbl) o).parent = NOTHING) ∧
    (o.child ≠ NOTHING → dbv4_find_object tbl o.child = none →
      (phase1RepairObj (v4validp tbl) o).child = NOTHING) ∧
    (o.sibling ≠ NOTHING → dbv4_find_object tbl o.sibling = none →
      (phase1RepairObj (v4validp tbl) o).sibling = NOTHING) ∧
    (o.location ≠ NOTHING → dbv4_find_object tbl o.location = none →
      (phase1RepairObj (v4validp tbl) o).location = NOTHING) ∧
    (o.contents ≠ NOTHING → dbv4_find_object tbl o.contents = none →
      (phase1RepairObj (v4validp tbl) o).contents = NOTHING) ∧
    (o.next ≠ NOTHING → dbv4_find_object tbl o.next = none →
      (phase1RepairObj (v4validp tbl) o).next = NOTHING) ∧
    (phase1RepairCount (v4validp tbl) o = 0 ↔ phase1RepairObj (v4validp tbl) o = o) ∧
    dbv4_find_object (v4_phase1 tbl) i = some (phase1RepairObj (v4validp tbl) o) ∧
    (v4_validate_hierarchies tbl).1 =
      (v4_phase2ok (v4_phase1 tbl) && v4_phase3ok (v4_phase1 tbl)) := by
  refine ⟨?_, ?_, ?_, ?_, ?_, ?_, ?_,
    phase1RepairCount_zero_iff (v4validp tbl) o, ?_, v4_validate_eq tbl⟩
  · intro hl
    by_cases hn : o.next = NOTHING <;>
      simp [phase1RepairObj, v4nextPre, v4fix, hl, hn]
  · intro h1 h2
    simp [phase1RepairObj, v4fix, v4validp, h1, h2]
  · intro h1 h2
    simp [phase1RepairObj, v4fix, v4validp, h1, h2]
  · intro h1 h2
    simp [phase1RepairObj, v4fix, v4validp, h1, h2]
  · intro h1 h2
    simp [phase1RepairObj, v4fix, v4validp, h1, h2]
  · intro h1 h2
    simp [phase1RepairObj, v4fix, v4validp, h1, h2]
  · intro h1 h2
    by_cases hl : o.location = NOTHING
    · by_cases hn : o.next = NOTHING <;>
        simp [phase1RepairObj, v4nextPre, v4fix, hl, hn]
    · simp [phase1RepairObj, v4nextPre, v4fix, v4validp, hl, h1, h2]
  · rw [dbv4_find_phase1, h]; rfl

/-- Witness for `c6_phase1_repairs`: the spec's dangling-parent scenario,
`#0` with `parent = #7` and no `#7`; the repair nulls the parent. -/
theorem c6_phase1_repairs_witness :
    dbv4_find_object exDangling 0 = some (mkObj4 7 (-1) (-1) (-1) (-1) (-1)) ∧
    (phase1RepairObj (v4validp exDangling) (mkObj4 7 (-1) (-1) (-1) (-1) (-1))).parent
      = NOTHING ∧
    (v4_validate_hierarchies exDangling).1 = true :=
  ⟨rfl,
   (c6_phase1_repairs exDangling 0 (mkObj4 7 (-1) (-1) (-1) (-1) (-1))
      rfl).2.1 (by decide) rfl,
   by decide⟩

/-! ## Claim C7: validator idempotence -/

theorem v4validp_phase1 (tbl : V4Store) :
    v4validp (v4_phase1 tbl) = v4validp tbl := by
  funext x
  show (dbv4_find_object (v4_phase1 tbl) x).isSome =
    (dbv4_find_object tbl x).isSome
  rw [dbv4_find_phase1]
  cases dbv4_find_object tbl x <;> rfl

theorem phase1RepairObj_good_count (v : Objid → Bool) (o : Object4)
    (hp : o.parent = NOTHING ∨ v o.parent = true)
    (hc : o.child = NOTHING ∨ v o.child = true)
    (hs : o.sibling = NOTHING ∨ v o.sibling = true)
    (hl : o.location = NOTHING ∨ v o.location = true)
    (hco : o.contents = NOTHING ∨ v o.contents = true)
    (hn : o.next = NOTHING ∨ v o.next = true)
    (hln : o.location = NOTHING → o.next = NOTHING) :
    phase1RepairCount v o = 0 ∧ phase1RepairObj v o = o := by
  have hpre : v4nextPreCount o = 0 ∧ v4nextPre o = o.next := by
    unfold v4nextPreCount v4nextPre
    split_ifs with hcnd
    · exact absurd (hln hcnd.1) hcnd.2
    · exact ⟨rfl, rfl⟩
  constructor
  · unfold phase1RepairCount
    rw [hpre.1, hpre.2, (v4fix_of_ok v _ hp).2, (v4fix_of_ok v _ hc).2,
      (v4fix_of_ok v _ hs).2, (v4fix_of_ok v _ hl).2, (v4fix_of_ok v _ hco).2,
      (v4fix_of_ok v _ hn).2]
  · refine phase1RepairObj_eq_self v o (v4fix_of_ok v _ hp).1 (v4fix_of_ok v _ hc).1
      (v4fix_of_ok v _ hs).1 (v4fix_of_ok v _ hl).1 (v4fix_of_ok v _ hco).1 ?_
    rw [hpre.2]
    exact (v4fix_of_ok v _ hn).1

theorem phase1_third_fix (v : Objid → Bool) (o : Object4) :
    phase1RepairCount v (phase1RepairObj v (phase1RepairObj v o)) = 0 ∧
    phase1RepairObj v (phase1RepairObj v (phase1RepairObj v o)) =
      phase1RepairObj v (phase1RepairObj v o) := by
  have f1l : (phase1RepairObj v o).location = NOTHING ∨
      v (phase1RepairObj v o).location = true := v4fix_ok v o.location
  refine phase1RepairObj_good_count v (phase1RepairObj v (phase1RepairObj v o))
    (v4fix_ok v _) (v4fix_ok v _) (v4fix_ok v _) (v4fix_ok v _) (v4fix_ok v _)
    (v4fix_ok v _) ?_
  intro h2l
  have hl1 : (phase1RepairObj v o).location = NOTHING := by
    have e1 : (phase1RepairObj v (phase1RepairObj v o)).location =
        v4fix v (phase1RepairObj v o).location := rfl
    rw [e1, (v4fix_of_ok v _ f1l).1] at h2l
    exact h2l
  show v4fix v (v4nextPre (phase1RepairObj v o)) = NOTHING
  have hpre : v4nextPre (phase1RepairObj v o) = NOTHING := by
    unfold v4nextPre
    split_ifs with hcnd
    · rfl
    · rcases not_and_or.mp hcnd with h | h
      · exact absurd hl1 h
      · exact not_not.mp h
  rw [hpre]
  unfold v4fix
  simp

theorem v4_phase1_twice_eq (tbl : V4Store) :
    v4_phase1 (v4_phase1 tbl) =
      tbl.map (Option.map fun o =>
        phase1RepairObj (v4validp tbl) (phase1RepairObj (v4validp tbl) o)) := by
  calc v4_phase1 (v4_phase1 tbl)
      = (v4_phase1 tbl).map
          (Option.map (phase1RepairObj (v4validp (v4_phase1 tbl)))) := rfl
    _ = (v4_phase1 tbl).map (Option.map (phase1RepairObj (v4validp tbl))) := by
        rw [v4validp_phase1]
    _ = (tbl.map (Option.map (phase1RepairObj (v4validp tbl)))).map
          (Option.map (phase1RepairObj (v4validp tbl))) := rfl
    _ = tbl.map (Option.map fun o =>
          phase1RepairObj (v4validp tbl) (phase1RepairObj (v4validp tbl) o)) := by
        rw [List.map_map]
        refine List.map_congr_left fun s hs => ?_
        cases s <;> rfl

theorem v4_third_run_count (tbl : V4Store) :
    v4_phase1Count (v4_phase1 (v4_phase1 tbl)) = 0 := by
  unfold v4_phase1Count
  rw [v4validp_phase1, v4validp_phase1, v4_phase1_twice_eq, List.map_map]
  refine List.sum_eq_zero fun x hx => ?_
  rcases List.mem_map.mp hx with ⟨s, hs, rfl⟩
  cases s with
  | none => rfl
  | some o => exact (phase1_third_fix (v4validp tbl) o).1

theorem v4_third_run_fix (tbl : V4Store) :
    v4_phase1 (v4_phase1 (v4_phase1 tbl)) = v4_phase1 (v4_phase1 tbl) := by
  calc v4_phase1 (v4_phase1 (v4_phase1 tbl))
      = (v4_phase1 (v4_phase1 tbl)).map
          (Option.map (phase1RepairObj (v4validp (v4_phase1 (v4_phase1 tbl))))) := rfl
    _ = (v4_phase1 (v4_phase1 tbl)).map
          (Option.map (phase1RepairObj (v4validp tbl))) := by
        rw [v4validp_phase1, v4validp_phase1]
    _ = v4_phase1 (v4_phase1 tbl) := by
        rw [v4_phase1_twice_eq, List.map_map]
        refine List.map_congr_left fun s hs => ?_
        cases s with
        | none => rfl
        | some o =>
          show some (phase1RepairObj (v4validp tbl)
            (phase1RepairObj (v4validp tbl) (phase1RepairObj (v4validp tbl) o))) = _
          rw [(phase1_third_fix (v4validp tbl) o).2]
          rfl

theorem ngValidp_map (st : NGStore) (f : Object → Object) :
    ngValidp (st.map (Option.map f)) = ngValidp st := by
  funext x
  show (dbpriv_find_object (st.map (Option.map f)) x).isSome =
    (dbpriv_find_object st x).isSome
  unfold dbpriv_find_object
  by_cases h : x < 0
  · simp [h]
  · rw [if_neg h, if_neg h, lookupSlot_map]
    cases lookupSlot st x.toNat <;> rfl

theorem ngPhase1Go_typesOk (validp : Objid → Bool) (l : List (Option Object))
    (h : (l.all fun s => s.elim true ngTypeOkObj) = true) :
    ngPhase1Go validp false l =
      (false, l.map (Option.map fun o => (ngRepairObj validp o).1),
        (l.map fun s => s.elim 0 fun o => (ngRepairObj validp o).2).sum) := by
  induction l with
  | nil => rfl
  | cons s rest ih =>
    rw [List.all_cons, Bool.and_eq_true] at h
    cases s with
    | none =>
      show (let r := ngPhase1Go validp false rest
            (r.1, none :: r.2.1, r.2.2)) = _
      rw [ih h.2]
      simp
    | some o =>
      have ht : ngTypeOkObj o = true := h.1
      show (let b1 := false || !(ngTypeOkObj o)
            if b1 then
              let r := ngPhase1Go validp b1 rest
              (r.1, some o :: r.2.1, r.2.2)
            else
              let oc := ngRepairObj validp o
              let r := ngPhase1Go validp b1 rest
              (r.1, some oc.1 :: r.2.1, oc.2 + r.2.2)) = _
      rw [ht]
      simp only [Bool.not_true, Bool.or_false, if_neg (by simp : ¬(false = true))]
      rw [ih h.2]
      simp

theorem ngRepairVar_valid (validp : Objid → Bool) (v : Var) :
    varRefsValid validp (ngRepairVar validp v).1 = true := by
  cases v with
  | list l =>
    show varRefsValid validp (.list (l.filter fun e =>
      match e with
      | Var.obj t => t == NOTHING || validp t
      | _ => true)) = true
    show (List.filter _ l).all _ = true
    rw [List.all_eq_true]
    intro e he
    exact (List.mem_filter.mp he).2
  | obj t =>
    show varRefsValid validp
      (if t ≠ NOTHING ∧ validp t = false then (Var.obj NOTHING, 1)
       else (Var.obj t, 0)).1 = true
    split_ifs with hc
    · rfl
    · show (t == NOTHING || validp t) = true
      rcases not_and_or.mp hc with h | h
      · have : t = NOTHING := not_not.mp h
        simp [this]
      · have : validp t = true := by revert h; cases validp t <;> simp
        simp [this]
  | int n => rfl
  | str s => rfl
  | other => rfl

theorem ngRepairVar_of_valid (validp : Objid → Bool) (v : Var)
    (h : varRefsValid validp v = true) :
    ngRepairVar validp v = (v, 0) := by
  cases v with
  | list l =>
    have hall : ∀ e ∈ l, (match e with
        | Var.obj t => t == NOTHING || validp t
        | _ => true) = true := by
      intro e he
      have := List.all_eq_true.mp h e he
      exact this
    show (Var.list (l.filter _), l.length - (l.filter _).length) = _
    rw [List.filter_eq_self.mpr hall]
    simp
  | obj t =>
    show (if t ≠ NOTHING ∧ validp t = false then (Var.obj NOTHING, 1)
          else (Var.obj t, 0)) = _
    split_ifs with hc
    · exfalso
      have hb : (t == NOTHING || validp t) = true := h
      simp only [Bool.or_eq_true, beq_iff_eq] at hb
      rcases hb with hb | hb
      · exact hc.1 hb
      · rw [hc.2] at hb; cases hb
    · rfl
  | int n => rfl
  | str s => rfl
  | other => rfl

theorem ngRepairObj_refs_valid (validp : Objid → Bool) (o : Object) :
    ngObjRefsValid validp (ngRepairObj validp o).1 = true := by
  show (varRefsValid validp (ngRepairVar validp o.parents).1 &&
        varRefsValid validp (ngRepairVar validp o.children).1 &&
        varRefsValid validp (ngRepairVar validp o.location).1 &&
        varRefsValid validp (ngRepairVar validp o.contents).1) = true
  rw [ngRepairVar_valid, ngRepairVar_valid, ngRepairVar_valid, ngRepairVar_valid]
  rfl

theorem ngRepairObj_of_valid (validp : Objid → Bool) (o : Object)
    (h : ngObjRefsValid validp o = true) :
    ngRepairObj validp o = (o, 0) := by
  unfold ngObjRefsValid at h
  simp only [Bool.and_eq_true] at h
  obtain ⟨⟨⟨h1, h2⟩, h3⟩, h4⟩ := h
  unfold ngRepairObj
  rw [ngRepairVar_of_valid _ _ h1, ngRepairVar_of_valid _ _ h2,
    ngRepairVar_of_valid _ _ h3, ngRepairVar_of_valid _ _ h4]
  rfl

theorem is_obj_repair (validp : Objid → Bool) (v : Var) (h : is_obj v = true) :
    is_obj (ngRepairVar validp v).1 = true := by
  cases v with
  | obj t =>
    show is_obj (if t ≠ NOTHING ∧ validp t = false then (Var.obj NOTHING, 1)
      else (Var.obj t, 0)).1 = true
    split_ifs <;> rfl
  | int n => cases h
  | str s => cases h
  | list l => cases h
  | other => cases h

theorem is_list_repair (validp : Objid → Bool) (v : Var)
    (h : is_list_of_objs v = true) :
    is_list_of_objs (ngRepairVar validp v).1 = true := by
  cases v with
  | list l =>
    show (List.filter _ l).all is_obj = true
    rw [List.all_eq_true]
    intro e he
    exact List.all_eq_true.mp h e (List.mem_filter.mp he).1
  | obj t => cases h
  | int n => cases h
  | str s => cases h
  | other => cases h

theorem is_objlist_repair (validp : Objid → Bool) (v : Var)
    (h : is_obj_or_list_of_objs v = true) :
    is_obj_or_list_of_objs (ngRepairVar validp v).1 = true := by
  unfold is_obj_or_list_of_objs at h ⊢
  simp only [Bool.or_eq_true] at h ⊢
  rcases h with h | h
  · exact Or.inl (is_obj_repair validp v h)
  · exact Or.inr (is_list_repair validp v h)

theorem ngTypeOkObj_repair (validp : Objid → Bool) (o : Object)
    (h : ngTypeOkObj o = true) : ngTypeOkObj (ngRepairObj validp o).1 = true := by
  unfold ngTypeOkObj at h
  simp only [Bool.and_eq_true] at h
  obtain ⟨⟨⟨h1, h2⟩, h3⟩, h4⟩ := h
  show (is_obj_or_list_of_objs (ngRepairVar validp o.parents).1 &&
        is_list_of_objs (ngRepairVar validp o.children).1 &&
        is_obj (ngRepairVar validp o.location).1 &&
        is_list_of_objs (ngRepairVar validp o.contents).1) = true
  rw [is_objlist_repair validp _ h1, is_list_repair validp _ h2,
    is_obj_repair validp _ h3, is_list_repair validp _ h4]
  rfl

/-- Claim C7, counterexample: on the store whose single object has a
dangling `location = #5` and a valid `next = #0`, the first validator run
succeeds with one repair (nulling the location), but the second run's phase
1 performs one more repair: the location/next legacy rule fires only now
that `location` is NOTHING.  So running the validator twice produces an
additional repair (and an additional errlog entry). -/
theorem c7_counterexample :
    (v4_validate_hierarchies exNextFix).1 = true ∧
    (v4_validate_hierarchies exNextFix).2.2 = 1 ∧
    v4_phase1Count ((v4_validate_hierarchies exNextFix).2.1) = 1 ∧
    (1 : Nat) ≠ 0 := by
  refine ⟨by decide, by decide, by decide, by decide⟩

/-- Claim C7 (amended): the next-gen validator is idempotent — after one
phase-1 pass on a type-correct store, every non-NOTHING id remaining inside
`parents`, `children`, `location` and `contents` denotes an existing
object, so a second pass removes and nulls nothing and leaves the store
unchanged.  The v4 validator only stabilizes after TWO runs: a second run
may still null `next` pointers (when the first run nulled a dangling
location), and a third run performs no repairs and changes nothing. -/
theorem c7_amended (tbl : V4Store) (st : NGStore) :
    (v4_phase1Count (v4_phase1 (v4_phase1 tbl)) = 0 ∧
     v4_phase1 (v4_phase1 (v4_phase1 tbl)) = v4_phase1 (v4_phase1 tbl)) ∧
    (ngTypesOk st = true →
      ngAllRefsValid (ngPhase1Store st) = true ∧
      ngPhase1Count (ngPhase1Store st) = 0 ∧
      ngPhase1Store (ngPhase1Store st) = ngPhase1Store st) := by
  refine ⟨⟨v4_third_run_count tbl, v4_third_run_fix tbl⟩, ?_⟩
  intro h
  have hgo := ngPhase1Go_typesOk (ngValidp st) st h
  have hstore : ngPhase1Store st =
      st.map (Option.map fun o => (ngRepairObj (ngValidp st) o).1) := by
    unfold ngPhase1Store ng_phase1
    rw [hgo]
  have hvp : ngValidp (ngPhase1Store st) = ngValidp st := by
    rw [hstore]; exact ngValidp_map st _
  have htypes2 : ngTypesOk (ngPhase1Store st) = true := by
    unfold ngTypesOk
    rw [hstore, List.all_map, List.all_eq_true]
    intro s hs
    cases s with
    | none => rfl
    | some o =>
      have ho : ngTypeOkObj o = true := by
        unfold ngTypesOk at h
        rw [List.all_eq_true] at h
        exact h (some o) hs
      exact ngTypeOkObj_repair (ngValidp st) o ho
  have hgo2 := ngPhase1Go_typesOk (ngValidp (ngPhase1Store st)) (ngPhase1Store st) htypes2
  refine ⟨?_, ?_, ?_⟩
  · unfold ngAllRefsValid
    rw [hvp, hstore, List.all_map, List.all_eq_true]
    intro s hs
    cases s with
    | none => rfl
    | some o => exact ngRepairObj_refs_valid (ngValidp st) o
  · show (ngPhase1Go (ngValidp (ngPhase1Store st)) false (ngPhase1Store st)).2.2 = 0
    rw [hgo2, hvp]
    show ((ngPhase1Store st).map fun s =>
      s.elim 0 fun o => (ngRepairObj (ngValidp st) o).2).sum = 0
    rw [hstore, List.map_map]
    refine List.sum_eq_zero fun x hx => ?_
    rcases List.mem_map.mp hx with ⟨s, hs, rfl⟩
    cases s with
    | none => rfl
    | some o =>
      show (ngRepairObj (ngValidp st) ((ngRepairObj (ngValidp st) o).1)).2 = 0
      rw [ngRepairObj_of_valid (ngValidp st) _ (ngRepairObj_refs_valid (ngValidp st) o)]
  · calc ngPhase1Store (ngPhase1Store st)
        = (ngPhase1Go (ngValidp (ngPhase1Store st)) false (ngPhase1Store st)).2.1 := rfl
      _ = (ngPhase1Store st).map (Option.map fun o =>
            (ngRepairObj (ngValidp (ngPhase1Store st)) o).1) := by rw [hgo2]
      _ = (ngPhase1Store st).map (Option.map fun o =>
            (ngRepairObj (ngValidp st) o).1) := by rw [hvp]
      _ = ngPhase1Store st := by
          rw [hstore, List.map_map]
          refine List.map_congr_left fun s hs => ?_
          cases s with
          | none => rfl
          | some o =>
            show some ((ngRepairObj (ngValidp st) ((ngRepairObj (ngValidp st) o).1)).1) = _
            rw [ngRepairObj_of_valid (ngValidp st) _ (ngRepairObj_refs_valid (ngValidp st) o)]
            rfl

/-- Witness for `c7_amended`: the type-correct store with one dangling
parent id; after its first pass a second pass has nothing to do. -/
theorem c7_amended_witness :
    ngTypesOk exNgDangling = true ∧
    ngPhase1Count (ngPhase1Store exNgDangling) = 0 :=
  ⟨by decide, ((c7_amended exInert exNgDangling).2 (by decide)).2.1⟩

/-! ## Claim C5: cycle detection.  First the v4 single-successor chains. -/

theorem chainSurvives_zero (tbl : V4Store) (step : Object4 → Objid) (s : Objid) :
    chainSurvives tbl step 0 s = if s = NOTHING then false else true := rfl

theorem chainSurvives_succ (tbl : V4Store) (step : Object4 → Objid) (n : Nat)
    (s : Objid) :
    chainSurvives tbl step (n + 1) s =
      if s = NOTHING then false
      else
        match dbv4_find_object tbl s with
        | some o => chainSurvives tbl step n (step o)
        | none => false := rfl

theorem chainNth_succ (tbl : V4Store) (step : Object4 → Objid) (n : Nat)
    (s : Objid) :
    chainNth tbl step (n + 1) s =
      if s = NOTHING then none
      else
        match dbv4_find_object tbl s with
        | some o => chainNth tbl step n (step o)
        | none => none := rfl

theorem find_props {tbl : V4Store} {s : Objid} {o : Object4}
    (h : dbv4_find_object tbl s = some o) :
    s ≠ NOTHING ∧ 0 ≤ s ∧ lookupSlot tbl s.toNat = some o ∧ some o ∈ tbl := by
  unfold dbv4_find_object at h
  by_cases hs : s < 0
  · rw [if_pos hs] at h; cases h
  · rw [if_neg hs] at h
    have hge : 0 ≤ s := Int.not_lt.mp hs
    refine ⟨fun he => ?_, hge, h, lookupSlot_mem h⟩
    subst he
    exact absurd hge (by decide)

theorem mem_v4succ {tbl : V4Store} {step : Object4 → Objid} {a b : Objid} :
    b ∈ v4succ tbl step a ↔
      ∃ o, dbv4_find_object tbl a = some o ∧ step o = b ∧ b ≠ NOTHING := by
  unfold v4succ
  cases hf : dbv4_find_object tbl a with
  | none =>
    simp
  | some o =>
    show (b ∈ if step o = NOTHING then ([] : List Objid) else [step o]) ↔
      ∃ o', some o = some o' ∧ step o' = b ∧ b ≠ NOTHING
    split_ifs with hso
    · constructor
      · intro hb; cases hb
      · rintro ⟨o', ho', hsb, hbn⟩
        injection ho' with ho'
        subst ho'
        rw [hso] at hsb
        exact absurd hsb.symm hbn
    · rw [List.mem_singleton]
      constructor
      · intro hb
        subst hb
        exact ⟨o, rfl, rfl, hso⟩
      · rintro ⟨o', ho', hsb, hbn⟩
        injection ho' with ho'
        subst ho'
        exact hsb.symm

theorem survives_positions (tbl : V4Store) (step : Object4 → Objid) :
    ∀ (n : Nat) (s : Objid), chainSurvives tbl step n s = true →
      ∀ i, i ≤ n → ∃ t, chainNth tbl step i s = some t ∧ t ≠ NOTHING := by
  intro n
  induction n with
  | zero =>
    intro s h i hi
    have hi0 : i = 0 := by omega
    subst hi0
    rw [chainSurvives_zero] at h
    by_cases hs : s = NOTHING
    · rw [if_pos hs] at h; cases h
    · exact ⟨s, rfl, hs⟩
  | succ m ih =>
    intro s h i hi
    rw [chainSurvives_succ] at h
    by_cases hs : s = NOTHING
    · rw [if_pos hs] at h; cases h
    · rw [if_neg hs] at h
      cases hf : dbv4_find_object tbl s with
      | none => rw [hf] at h; cases h
      | some o =>
        rw [hf] at h
        have h2 : chainSurvives tbl step m (step o) = true := h
        cases i with
        | zero => exact ⟨s, rfl, hs⟩
        | succ j =>
          obtain ⟨t, ht, htn⟩ := ih (step o) h2 j (by omega)
          refine ⟨t, ?_, htn⟩
          rw [chainNth_succ, if_neg hs, hf]
          exact ht

theorem chainNth_valid (tbl : V4Store) (step : Object4 → Objid)
    (hstep : ∀ i o, dbv4_find_object tbl i = some o →
      validOrNothing tbl (step o) = true) :
    ∀ (i : Nat) (s : Objid), validOrNothing tbl s = true →
      ∀ t, chainNth tbl step i s = some t → validOrNothing tbl t = true := by
  intro i
  induction i with
  | zero =>
    intro s hs t ht
    have ht2 : some s = some t := ht
    injection ht2 with ht2
    subst ht2
    exact hs
  | succ j ih =>
    intro s hs t ht
    rw [chainNth_succ] at ht
    by_cases hne : s = NOTHING
    · rw [if_pos hne] at ht; cases ht
    · rw [if_neg hne] at ht
      cases hf : dbv4_find_object tbl s with
      | none => rw [hf] at ht; cases ht
      | some o =>
        rw [hf] at ht
        have ht2 : chainNth tbl step j (step o) = some t := ht
        exact ih (step o) (hstep s o hf) t ht2

theorem chainNth_add (tbl : V4Store) (step : Object4 → Objid) :
    ∀ (k j : Nat) (s : Objid), chainNth tbl step (k + j) s =
      (chainNth tbl step k s).bind (chainNth tbl step j) := by
  intro k
  induction k with
  | zero =>
    intro j s
    rw [Nat.zero_add]
    rfl
  | succ m ih =>
    intro j s
    have e : m + 1 + j = (m + j) + 1 := by omega
    rw [e, chainNth_succ, chainNth_succ]
    by_cases hne : s = NOTHING
    · rw [if_pos hne, if_pos hne]; rfl
    · rw [if_neg hne, if_neg hne]
      cases hf : dbv4_find_object tbl s with
      | none => rfl
      | some o => exact ih j (step o)

theorem iterToChain (tbl : V4Store) (step : Object4 → Objid) :
    ∀ (k : Nat) (s t : Objid), chainNth tbl step (k + 1) s = some t →
      t ≠ NOTHING →
      ∃ l, List.Chain (StepRel (v4succ tbl step)) s (l ++ [t]) := by
  intro k
  induction k with
  | zero =>
    intro s t h htn
    rw [chainNth_succ] at h
    by_cases hne : s = NOTHING
    · rw [if_pos hne] at h; cases h
    · rw [if_neg hne] at h
      cases hf : dbv4_find_object tbl s with
      | none => rw [hf] at h; cases h
      | some o =>
        rw [hf] at h
        have h2 : some (step o) = some t := h
        injection h2 with h2
        refine ⟨[], ?_⟩
        rw [List.nil_append]
        exact List.chain_singleton.mpr (mem_v4succ.mpr ⟨o, hf, h2, htn⟩)
  | succ m ih =>
    intro s t h htn
    rw [chainNth_succ] at h
    by_cases hne : s = NOTHING
    · rw [if_pos hne] at h; cases h
    · rw [if_neg hne] at h
      cases hf : dbv4_find_object tbl s with
      | none => rw [hf] at h; cases h
      | some o =>
        rw [hf] at h
        have h2 : chainNth tbl step (m + 1) (step o) = some t := h
        have hso : step o ≠ NOTHING := by
          intro he
          rw [chainNth_succ, if_pos he] at h2
          cases h2
        obtain ⟨l, hch⟩ := ih (step o) t h2 htn
        refine ⟨step o :: l, ?_⟩
        rw [List.cons_append]
        exact List.chain_cons.mpr ⟨mem_v4succ.mpr ⟨o, hf, rfl, hso⟩, hch⟩

theorem mem_liveIds {α : Type} (l : List (Option α)) (t : Objid) (x : α)
    (ht : 0 ≤ t) (h : lookupSlot l t.toNat = some x) : t ∈ liveIds l := by
  unfold liveIds
  rw [List.mem_toFinset, List.mem_filterMap]
  refine ⟨t.toNat, List.mem_range.mpr (lookupSlot_lt_length h), ?_⟩
  rw [h]
  simp [Int.toNat_of_nonneg ht]

theorem card_liveIds {α : Type} (l : List (Option α)) :
    (liveIds l).card ≤ l.length := by
  unfold liveIds
  calc _ ≤ (List.filterMap _ (List.range l.length)).length :=
        List.toFinset_card_le _
    _ ≤ (List.range l.length).length := List.length_filterMap_le _ _
    _ = l.length := List.length_range _

theorem chain_first_step {R : Objid → Objid → Prop} (x t : Objid) (l : List Objid)
    (h : List.Chain R x (l ++ [t])) :
    (l = [] ∧ R x t) ∨ ∃ a l2, l = a :: l2 ∧ R x a ∧ List.Chain R a (l2 ++ [t]) := by
  cases l with
  | nil =>
    rw [List.nil_append] at h
    exact Or.inl ⟨rfl, List.chain_singleton.mp h⟩
  | cons a l2 =>
    rw [List.cons_append] at h
    obtain ⟨hR, hch⟩ := List.chain_cons.mp h
    exact Or.inr ⟨a, l2, rfl, hR, hch⟩

theorem cycleAt_of_repeat (tbl : V4Store) (step : Object4 → Objid)
    (s t : Objid) (i j : Nat) (hij : i < j)
    (hti : chainNth tbl step i s = some t) (htj : chainNth tbl step j s = some t)
    (htn : t ≠ NOTHING) :
    ReachesCycle (v4succ tbl step) s := by
  have e : i + (j - i) = j := by omega
  have hjt : chainNth tbl step (j - i) t = some t := by
    have hadd := chainNth_add tbl step i (j - i) s
    rw [e, hti, htj] at hadd
    have hadd2 : some t = chainNth tbl step (j - i) t := hadd
    exact hadd2.symm
  obtain ⟨m, hm⟩ : ∃ m, j - i = m + 1 := ⟨j - i - 1, by omega⟩
  rw [hm] at hjt
  obtain ⟨l, hch⟩ := iterToChain tbl step m t t hjt htn
  have hcyc : HasCycleAt (v4succ tbl step) t := ⟨l, hch⟩
  cases i with
  | zero =>
    have hst : some s = some t := hti
    injection hst with hst
    exact ⟨t, Or.inl hst, hcyc⟩
  | succ k =>
    obtain ⟨l2, hch2⟩ := iterToChain tbl step k s t hti htn
    exact ⟨t, Or.inr ⟨l2, hch2⟩, hcyc⟩

theorem survives_reachesCycle (tbl : V4Store) (step : Object4 → Objid)
    (hstep : ∀ i o, dbv4_find_object tbl i = some o →
      validOrNothing tbl (step o) = true)
    (s : Objid) (hs : validOrNothing tbl s = true)
    (h : chainSurvives tbl step tbl.length s = true) :
    ReachesCycle (v4succ tbl step) s := by
  have hpos := survives_positions tbl step tbl.length s h
  have hmapsto : ∀ i ∈ Finset.range (tbl.length + 1),
      (chainNth tbl step i s).getD NOTHING ∈ liveIds tbl := by
    intro i hi
    rw [Finset.mem_range] at hi
    obtain ⟨t, ht, htn⟩ := hpos i (by omega)
    rw [ht]
    have hv : validOrNothing tbl t = true := chainNth_valid tbl step hstep i s hs t ht
    unfold validOrNothing at hv
    simp only [Bool.or_eq_true, beq_iff_eq] at hv
    rcases hv with hv | hv
    · exact absurd hv htn
    · cases hf : dbv4_find_object tbl t with
      | none => rw [hf] at hv; cases hv
      | some o =>
        obtain ⟨_, hge, hl, _⟩ := find_props hf
        show t ∈ liveIds tbl
        exact mem_liveIds tbl t o hge hl
  have hcard : (liveIds tbl).card < (Finset.range (tbl.length + 1)).card := by
    rw [Finset.card_range]
    have := card_liveIds tbl
    omega
  obtain ⟨i, hi, j, hj, hne, heq⟩ :=
    Finset.exists_ne_map_eq_of_card_lt_of_maps_to hcard hmapsto
  rw [Finset.mem_range] at hi hj
  obtain ⟨ti, hti, htin⟩ := hpos i (by omega)
  obtain ⟨tj, htj, htjn⟩ := hpos j (by omega)
  rw [hti, htj] at heq
  simp only [Option.getD_some] at heq
  subst heq
  rcases Nat.lt_or_ge i j with hij | hij
  · exact cycleAt_of_repeat tbl step s ti i j hij hti htj htin
  · have hji : j < i := by omega
    exact cycleAt_of_repeat tbl step s ti j i hji htj hti htin

theorem reachesCycle_step (tbl : V4Store) (step : Object4 → Objid) (s : Objid)
    (h : ReachesCycle (v4succ tbl step) s) :
    s ≠ NOTHING ∧ ∃ o, dbv4_find_object tbl s = some o ∧
      ReachesCycle (v4succ tbl step) (step o) := by
  obtain ⟨x, hreach, l, hcyc⟩ := h
  rcases hreach with rfl | ⟨l2, hch⟩
  · rcases chain_first_step s s l hcyc with ⟨hl, hR⟩ | ⟨a, l3, hl, hR, hch2⟩
    · obtain ⟨o, ho, hso, hne⟩ := mem_v4succ.mp hR
      refine ⟨(find_props ho).1, o, ho, ?_⟩
      rw [hso]
      exact ⟨s, Or.inl rfl, l, hcyc⟩
    · obtain ⟨o, ho, hso, hne⟩ := mem_v4succ.mp hR
      refine ⟨(find_props ho).1, o, ho, ?_⟩
      rw [hso]
      exact ⟨s, Or.inr ⟨l3, hch2⟩, l, hcyc⟩
  · rcases chain_first_step s x l2 hch with ⟨hl, hR⟩ | ⟨a, l3, hl, hR, hch2⟩
    · obtain ⟨o, ho, hso, hne⟩ := mem_v4succ.mp hR
      refine ⟨(find_props ho).1, o, ho, ?_⟩
      rw [hso]
      exact ⟨x, Or.inl rfl, l, hcyc⟩
    · obtain ⟨o, ho, hso, hne⟩ := mem_v4succ.mp hR
      refine ⟨(find_props ho).1, o, ho, ?_⟩
      rw [hso]
      exact ⟨x, Or.inr ⟨l3, hch2⟩, l, hcyc⟩

theorem reachesCycle_survives (tbl : V4Store) (step : Object4 → Objid) :
    ∀ (n : Nat) (s : Objid), ReachesCycle (v4succ tbl step) s →
      chainSurvives tbl step n s = true := by
  intro n
  induction n with
  | zero =>
    intro s h
    obtain ⟨hne, o, ho, _⟩ := reachesCycle_step tbl step s h
    rw [chainSurvives_zero, if_neg hne]
  | succ m ih =>
    intro s h
    obtain ⟨hne, o, ho, hrec⟩ := reachesCycle_step tbl step s h
    rw [chainSurvives_succ, if_neg hne, ho]
    exact ih (step o) hrec

theorem survives_iff_reachesCycle (tbl : V4Store) (step : Object4 → Objid)
    (hstep : ∀ i o, dbv4_find_object tbl i = some o →
      validOrNothing tbl (step o) = true)
    (s : Objid) (hs : validOrNothing tbl s = true) :
    chainSurvives tbl step tbl.length s = true ↔ ReachesCycle (v4succ tbl step) s :=
  ⟨survives_reachesCycle tbl step hstep s hs, reachesCycle_survives tbl step tbl.length s⟩

theorem refsValid_find (tbl : V4Store) (hval : v4RefsValid tbl = true) :
    ∀ i o, dbv4_find_object tbl i = some o →
      validOrNothing tbl o.parent = true ∧ validOrNothing tbl o.child = true ∧
      validOrNothing tbl o.sibling = true ∧ validOrNothing tbl o.location = true ∧
      validOrNothing tbl o.contents = true ∧ validOrNothing tbl o.next = true := by
  intro i o h
  have hm : some o ∈ tbl := (find_props h).2.2.2
  unfold v4RefsValid at hval
  rw [List.all_eq_true] at hval
  have h2 : refValidObj tbl o = true := hval (some o) hm
  unfold refValidObj at h2
  simp only [Bool.and_eq_true] at h2
  exact ⟨h2.1.1.1.1.1, h2.1.1.1.1.2, h2.1.1.1.2, h2.1.1.2, h2.1.2, h2.2⟩

theorem refsValid_mem (tbl : V4Store) (hval : v4RefsValid tbl = true)
    {o : Object4} (hm : some o ∈ tbl) :
    validOrNothing tbl o.parent = true ∧ validOrNothing tbl o.child = true ∧
    validOrNothing tbl o.sibling = true ∧ validOrNothing tbl o.location = true ∧
    validOrNothing tbl o.contents = true ∧ validOrNothing tbl o.next = true := by
  unfold v4RefsValid at hval
  rw [List.all_eq_true] at hval
  have h2 : refValidObj tbl o = true := hval (some o) hm
  unfold refValidObj at h2
  simp only [Bool.and_eq_true] at h2
  exact ⟨h2.1.1.1.1.1, h2.1.1.1.1.2, h2.1.1.1.2, h2.1.1.2, h2.1.2, h2.2⟩

theorem v4_phase2ok_false_iff (tbl : V4Store) (hval : v4RefsValid tbl = true) :
    v4_phase2ok tbl = false ↔ ∃ o, some o ∈ tbl ∧
      (ReachesCycle (v4succ tbl Object4.parent) o.parent ∨
       ReachesCycle (v4succ tbl Object4.sibling) o.child ∨
       ReachesCycle (v4succ tbl Object4.location) o.location ∨
       ReachesCycle (v4succ tbl Object4.next) o.contents) := by
  have hstepP : ∀ i o, dbv4_find_object tbl i = some o →
      validOrNothing tbl (Object4.parent o) = true :=
    fun i o h => (refsValid_find tbl hval i o h).1
  have hstepS : ∀ i o, dbv4_find_object tbl i = some o →
      validOrNothing tbl (Object4.sibling o) = true :=
    fun i o h => (refsValid_find tbl hval i o h).2.2.1
  have hstepL : ∀ i o, dbv4_find_object tbl i = some o →
      validOrNothing tbl (Object4.location o) = true :=
    fun i o h => (refsValid_find tbl hval i o h).2.2.2.1
  have hstepN : ∀ i o, dbv4_find_object tbl i = some o →
      validOrNothing tbl (Object4.next o) = true :=
    fun i o h => (refsValid_find tbl hval i o h).2.2.2.2.2
  constructor
  · intro h
    have h2 : ¬ (v4_phase2ok tbl = true) := by rw [h]; simp
    unfold v4_phase2ok at h2
    rw [List.all_eq_true] at h2
    push_neg at h2
    obtain ⟨s, hm, hp⟩ := h2
    cases s with
    | none => exact absurd rfl hp
    | some o =>
      have hfields := refsValid_mem tbl hval hm
      have hp2 : (!(chainSurvives tbl Object4.parent tbl.length o.parent ||
           chainSurvives tbl Object4.sibling tbl.length o.child ||
           chainSurvives tbl Object4.location tbl.length o.location ||
           chainSurvives tbl Object4.next tbl.length o.contents)) ≠ true := hp
      have hsurv :
          (chainSurvives tbl Object4.parent tbl.length o.parent ||
           chainSurvives tbl Object4.sibling tbl.length o.child ||
           chainSurvives tbl Object4.location tbl.length o.location ||
           chainSurvives tbl Object4.next tbl.length o.contents) = true := by
        revert hp2
        cases hb : (chainSurvives tbl Object4.parent tbl.length o.parent ||
           chainSurvives tbl Object4.sibling tbl.length o.child ||
           chainSurvives tbl Object4.location tbl.length o.location ||
           chainSurvives tbl Object4.next tbl.length o.contents)
        · intro hp2; exact absurd rfl hp2
        · intro _; rfl
      simp only [Bool.or_eq_true] at hsurv
      refine ⟨o, hm, ?_⟩
      rcases hsurv with ((hs1 | hs2) | hs3) | hs4
      · exact Or.inl ((survives_iff_reachesCycle tbl Object4.parent hstepP
          o.parent hfields.1).mp hs1)
      · exact Or.inr (Or.inl ((survives_iff_reachesCycle tbl Object4.sibling hstepS
          o.child hfields.2.1).mp hs2))
      · exact Or.inr (Or.inr (Or.inl ((survives_iff_reachesCycle tbl Object4.location
          hstepL o.location hfields.2.2.2.1).mp hs3)))
      · exact Or.inr (Or.inr (Or.inr ((survives_iff_reachesCycle tbl Object4.next
          hstepN o.contents hfields.2.2.2.2.1).mp hs4)))
  · rintro ⟨o, hm, hr⟩
    have hfields := refsValid_mem tbl hval hm
    have hsurv : (chainSurvives tbl Object4.parent tbl.length o.parent ||
        chainSurvives tbl Object4.sibling tbl.length o.child ||
        chainSurvives tbl Object4.location tbl.length o.location ||
        chainSurvives tbl Object4.next tbl.length o.contents) = true := by
      simp only [Bool.or_eq_true]
      rcases hr with h | h | h | h
      · exact Or.inl (Or.inl (Or.inl
          (reachesCycle_survives tbl Object4.parent tbl.length o.parent h)))
      · exact Or.inl (Or.inl (Or.inr
          (reachesCycle_survives tbl Object4.sibling tbl.length o.child h)))
      · exact Or.inl (Or.inr
          (reachesCycle_survives tbl Object4.location tbl.length o.location h))
      · exact Or.inr (reachesCycle_survives tbl Object4.next tbl.length o.contents h)
    cases hok : v4_phase2ok tbl with
    | false => rfl
    | true =>
      exfalso
      unfold v4_phase2ok at hok
      rw [List.all_eq_true] at hok
      have := hok (some o) hm
      have h3 : (!(chainSurvives tbl Object4.parent tbl.length o.parent ||
          chainSurvives tbl Object4.sibling tbl.length o.child ||
          chainSurvives tbl Object4.location tbl.length o.location ||
          chainSurvives tbl Object4.next tbl.length o.contents)) = true := this
      rw [hsurv] at h3
      cases h3

theorem exists_reaches_iff_hasCycle (tbl : V4Store) (step : Object4 → Objid) :
    (∃ o, some o ∈ tbl ∧ ReachesCycle (v4succ tbl step) (step o)) ↔
      HasCycle (v4succ tbl step) := by
  constructor
  · rintro ⟨o, hm, x, hr, hc⟩
    exact ⟨x, hc⟩
  · rintro ⟨x, l, hcyc⟩
    rcases chain_first_step x x l hcyc with ⟨hl, hR⟩ | ⟨a, l2, hl, hR, hch2⟩
    · obtain ⟨o, ho, hso, hne⟩ := mem_v4succ.mp hR
      refine ⟨o, (find_props ho).2.2.2, ?_⟩
      rw [hso]
      exact ⟨x, Or.inl rfl, l, hcyc⟩
    · obtain ⟨o, ho, hso, hne⟩ := mem_v4succ.mp hR
      refine ⟨o, (find_props ho).2.2.2, ?_⟩
      rw [hso]
      exact ⟨x, Or.inr ⟨l2, hch2⟩, l, hcyc⟩

/-! ## Claim C5: the next-gen multi-parent graph -/

theorem mem_reachUpTo (f : Objid → List Objid) :
    ∀ (n : Nat) (a t : Objid), t ∈ reachUpTo f n a ↔
      ∃ l, List.Chain (StepRel f) a (l ++ [t]) ∧ l.length + 1 ≤ n := by
  intro n
  induction n with
  | zero =>
    intro a t
    constructor
    · intro h; cases h
    · rintro ⟨l, _, hl⟩; omega
  | succ m ih =>
    intro a t
    constructor
    · intro h
      rcases List.mem_append.mp h with h | h
      · refine ⟨[], ?_, by simp⟩
        rw [List.nil_append]
        exact List.chain_singleton.mpr h
      · obtain ⟨b, hb, ht⟩ := List.mem_flatMap.mp h
        obtain ⟨l, hch, hlen⟩ := (ih b t).mp ht
        refine ⟨b :: l, ?_, by simp; omega⟩
        rw [List.cons_append]
        exact List.chain_cons.mpr ⟨hb, hch⟩
    · rintro ⟨l, hch, hlen⟩
      cases l with
      | nil =>
        rw [List.nil_append] at hch
        exact List.mem_append.mpr (Or.inl (List.chain_singleton.mp hch))
      | cons b l2 =>
        rw [List.cons_append] at hch
        obtain ⟨hR, hch2⟩ := List.chain_cons.mp hch
        refine List.mem_append.mpr (Or.inr (List.mem_flatMap.mpr ⟨b, hR, ?_⟩))
        refine (ih b t).mpr ⟨l2, hch2, ?_⟩
        simp at hlen
        omega

theorem chain_mem_out {R : Objid → Objid → Prop} (l : List Objid) :
    ∀ (x t : Objid), List.Chain R x (l ++ [t]) → ∀ y ∈ x :: l, ∃ z, R y z := by
  induction l with
  | nil =>
    intro x t h y hy
    rw [List.nil_append] at h
    rcases List.mem_cons.mp hy with rfl | hy
    · exact ⟨t, List.chain_singleton.mp h⟩
    · cases hy
  | cons b l2 ih =>
    intro x t h y hy
    rw [List.cons_append] at h
    obtain ⟨hR, hch⟩ := List.chain_cons.mp h
    rcases List.mem_cons.mp hy with rfl | hy
    · exact ⟨b, hR⟩
    · exact ih b t hch y hy

theorem exists_dup_split {α : Type} [DecidableEq α] :
    ∀ (l : List α), ¬ l.Nodup → ∃ (a : α) (p q r : List α), l = p ++ a :: q ++ a :: r := by
  intro l
  induction l with
  | nil => intro h; exact absurd List.nodup_nil h
  | cons b t ih =>
    intro h
    by_cases hb : b ∈ t
    · obtain ⟨s, u, rfl⟩ := List.append_of_mem hb
      exact ⟨b, [], s, u, by simp⟩
    · have ht : ¬ t.Nodup := fun hnd => h (List.nodup_cons.mpr ⟨hb, hnd⟩)
      obtain ⟨a, p, q, r, rfl⟩ := ih ht
      exact ⟨a, b :: p, q, r, rfl⟩

theorem chain_cut1 {R : Objid → Objid → Prop} (x : Objid) (p q : List Objid)
    (h : List.Chain R x ((p ++ x :: q) ++ [x])) : List.Chain R x (p ++ [x]) := by
  have e : (p ++ x :: q) ++ [x] = p ++ x :: (q ++ [x]) := by simp
  rw [e] at h
  exact (List.chain_split.mp h).1

theorem chain_cut2 {R : Objid → Objid → Prop} (x a : Objid) (p q r : List Objid)
    (h : List.Chain R x ((p ++ a :: q ++ a :: r) ++ [x])) :
    List.Chain R x ((p ++ a :: r) ++ [x]) := by
  have e1 : (p ++ a :: q ++ a :: r) ++ [x] = p ++ a :: (q ++ a :: (r ++ [x])) := by
    simp
  rw [e1] at h
  obtain ⟨h1, h2⟩ := List.chain_split.mp h
  obtain ⟨h3, h4⟩ := List.chain_split.mp h2
  have e2 : (p ++ a :: r) ++ [x] = p ++ a :: (r ++ [x]) := by simp
  rw [e2]
  exact List.chain_split.mpr ⟨h1, h4⟩

theorem chain_shorten (f : Objid → List Objid) (S : Finset Int)
    (hlive : ∀ a b, b ∈ f a → a ∈ S) :
    ∀ (n : Nat) (l : List Objid) (x : Objid), l.length ≤ n →
      List.Chain (StepRel f) x (l ++ [x]) →
      ∃ l2 : List Objid, List.Chain (StepRel f) x (l2 ++ [x]) ∧
        l2.length + 1 ≤ S.card := by
  intro n
  induction n with
  | zero =>
    intro l x hlen hch
    have hl0 : l = [] := List.length_eq_zero.mp (by omega)
    subst hl0
    refine ⟨[], hch, ?_⟩
    rw [List.nil_append] at hch
    have hR := List.chain_singleton.mp hch
    have hx : x ∈ S := hlive x x hR
    have := Finset.card_pos.mpr ⟨x, hx⟩
    simpa using this
  | succ m ih =>
    intro l x hlen hch
    by_cases hnd : (x :: l).Nodup
    · refine ⟨l, hch, ?_⟩
      have hsub : ∀ y ∈ x :: l, y ∈ S := by
        intro y hy
        obtain ⟨z, hz⟩ := chain_mem_out l x x hch y hy
        exact hlive y z hz
      have h1 : (x :: l).toFinset.card = (x :: l).length :=
        List.toFinset_card_of_nodup hnd
      have h2 : (x :: l).toFinset ⊆ S :=
        fun y hy => hsub y (List.mem_toFinset.mp hy)
      have h3 := Finset.card_le_card h2
      have h4 : (x :: l).length = l.length + 1 := by simp
      omega
    · by_cases hx : x ∈ l
      · obtain ⟨p, q, rfl⟩ := List.append_of_mem hx
        have hch2 := chain_cut1 x p q hch
        have hplen : p.length ≤ m := by
          simp [List.length_append] at hlen
          omega
        exact ih p x hplen hch2
      · have hl : ¬ l.Nodup := fun hnd2 => hnd (List.nodup_cons.mpr ⟨hx, hnd2⟩)
        obtain ⟨a, p, q, r, rfl⟩ := exists_dup_split l hl
        have hch2 := chain_cut2 x a p q r hch
        have hplen : (p ++ a :: r).length ≤ m := by
          simp [List.length_append] at hlen ⊢
          omega
        exact ih (p ++ a :: r) x hplen hch2

theorem ngParentsOf_live (st : NGStore) (a b : Objid)
    (h : b ∈ ngParentsOf st a) : a ∈ liveIds st := by
  unfold ngParentsOf at h
  cases hf : dbpriv_find_object st a with
  | none => rw [hf] at h; cases h
  | some o =>
    unfold dbpriv_find_object at hf
    by_cases ha : a < 0
    · rw [if_pos ha] at hf; cases hf
    · rw [if_neg ha] at hf
      exact mem_liveIds st a o (Int.not_lt.mp ha) hf

theorem ngLocOf_live (st : NGStore) (a b : Objid)
    (h : b ∈ ngLocOf st a) : a ∈ liveIds st := by
  unfold ngLocOf at h
  cases hf : dbpriv_find_object st a with
  | none => rw [hf] at h; cases h
  | some o =>
    unfold dbpriv_find_object at hf
    by_cases ha : a < 0
    · rw [if_pos ha] at hf; cases hf
    · rw [if_neg ha] at hf
      exact mem_liveIds st a o (Int.not_lt.mp ha) hf

theorem liveIds_lookup {α : Type} (l : List (Option α)) (a : Objid)
    (h : a ∈ liveIds l) :
    0 ≤ a ∧ a.toNat < l.length ∧ (lookupSlot l a.toNat).isSome = true := by
  unfold liveIds at h
  rw [List.mem_toFinset, List.mem_filterMap] at h
  obtain ⟨i, hi, hmap⟩ := h
  rw [List.mem_range] at hi
  cases hl : lookupSlot l i with
  | none => rw [hl] at hmap; cases hmap
  | some x =>
    rw [hl] at hmap
    have hmap2 : some (Int.ofNat i) = some a := hmap
    injection hmap2 with hmap2
    subst hmap2
    refine ⟨Int.ofNat_nonneg i, ?_, ?_⟩
    · show i < l.length
      exact hi
    · show (lookupSlot l i).isSome = true
      rw [hl]
      rfl

theorem ng_phase2ok_false_iff (st : NGStore) :
    ng_phase2ok st = false ↔ HasCycle (ngParentsOf st) ∨ HasCycle (ngLocOf st) := by
  constructor
  · intro h
    have h2 : ¬ (ng_phase2ok st = true) := by rw [h]; simp
    unfold ng_phase2ok at h2
    rw [List.all_eq_true] at h2
    push_neg at h2
    obtain ⟨i, hi, hp⟩ := h2
    rw [List.mem_range] at hi
    cases hl : lookupSlot st i with
    | none => rw [hl] at hp; exact absurd rfl hp
    | some o =>
      rw [hl] at hp
      have hp2 : (!(decide (Int.ofNat i ∈ db_ancestors st (Int.ofNat i)) ||
          decide (Int.ofNat i ∈ db_all_locations st (Int.ofNat i)))) ≠ true := hp
      have hmem : Int.ofNat i ∈ db_ancestors st (Int.ofNat i) ∨
          Int.ofNat i ∈ db_all_locations st (Int.ofNat i) := by
        by_contra hc
        push_neg at hc
        have d1 : decide (Int.ofNat i ∈ db_ancestors st (Int.ofNat i)) = false :=
          decide_eq_false hc.1
        have d2 : decide (Int.ofNat i ∈ db_all_locations st (Int.ofNat i)) = false :=
          decide_eq_false hc.2
        rw [d1, d2] at hp2
        exact hp2 rfl
      rcases hmem with hm | hm
      · unfold db_ancestors at hm
        obtain ⟨l, hch, _⟩ := (mem_reachUpTo (ngParentsOf st) st.length
          (Int.ofNat i) (Int.ofNat i)).mp hm
        exact Or.inl ⟨Int.ofNat i, l, hch⟩
      · unfold db_all_locations at hm
        obtain ⟨l, hch, _⟩ := (mem_reachUpTo (ngLocOf st) st.length
          (Int.ofNat i) (Int.ofNat i)).mp hm
        exact Or.inr ⟨Int.ofNat i, l, hch⟩
  · intro h
    have key : ∃ i : Nat, i < st.length ∧ (lookupSlot st i).isSome = true ∧
        (Int.ofNat i ∈ db_ancestors st (Int.ofNat i) ∨
         Int.ofNat i ∈ db_all_locations st (Int.ofNat i)) := by
      rcases h with ⟨x, l, hcyc⟩ | ⟨x, l, hcyc⟩
      · have hR : ∃ h1, StepRel (ngParentsOf st) x h1 := by
          rcases chain_first_step x x l hcyc with ⟨_, hR⟩ | ⟨a, l2, _, hR, _⟩
          exacts [⟨x, hR⟩, ⟨a, hR⟩]
        obtain ⟨h1, hR⟩ := hR
        have hxlive : x ∈ liveIds st := ngParentsOf_live st x h1 hR
        obtain ⟨hge, hlt, hsome⟩ := liveIds_lookup st x hxlive
        obtain ⟨l2, hch2, hlen2⟩ := chain_shorten (ngParentsOf st) (liveIds st)
          (fun a b hb => ngParentsOf_live st a b hb) l.length l x le_rfl hcyc
        have hmem : x ∈ db_ancestors st x := by
          unfold db_ancestors
          refine (mem_reachUpTo _ _ _ _).mpr ⟨l2, hch2, ?_⟩
          have := card_liveIds st
          omega
        have hcast : Int.ofNat x.toNat = x := Int.toNat_of_nonneg hge
        refine ⟨x.toNat, hlt, hsome, Or.inl ?_⟩
        rw [hcast]
        exact hmem
      · have hR : ∃ h1, StepRel (ngLocOf st) x h1 := by
          rcases chain_first_step x x l hcyc with ⟨_, hR⟩ | ⟨a, l2, _, hR, _⟩
          exacts [⟨x, hR⟩, ⟨a, hR⟩]
        obtain ⟨h1, hR⟩ := hR
        have hxlive : x ∈ liveIds st := ngLocOf_live st x h1 hR
        obtain ⟨hge, hlt, hsome⟩ := liveIds_lookup st x hxlive
        obtain ⟨l2, hch2, hlen2⟩ := chain_shorten (ngLocOf st) (liveIds st)
          (fun a b hb => ngLocOf_live st a b hb) l.length l x le_rfl hcyc
        have hmem : x ∈ db_all_locations st x := by
          unfold db_all_locations
          refine (mem_reachUpTo _ _ _ _).mpr ⟨l2, hch2, ?_⟩
          have := card_liveIds st
          omega
        have hcast : Int.ofNat x.toNat = x := Int.toNat_of_nonneg hge
        refine ⟨x.toNat, hlt, hsome, Or.inr ?_⟩
        rw [hcast]
        exact hmem
    obtain ⟨i, hi, hsome, hmem⟩ := key
    cases hok : ng_phase2ok st with
    | false => rfl
    | true =>
      exfalso
      unfold ng_phase2ok at hok
      rw [List.all_eq_true] at hok
      have hp := hok i (List.mem_range.mpr hi)
      cases hl : lookupSlot st i with
      | none => rw [hl] at hsome; cases hsome
      | some o =>
        rw [hl] at hp
        have hp2 : (!(decide (Int.ofNat i ∈ db_ancestors st (Int.ofNat i)) ||
            decide (Int.ofNat i ∈ db_all_locations st (Int.ofNat i)))) = true := hp
        simp only [Bool.not_eq_true', Bool.or_eq_false_iff, decide_eq_false_iff_not]
          at hp2
        rcases hmem with hm | hm
        · exact hp2.1 hm
        · exact hp2.2 hm

theorem noCycle_of_empty (f : Objid → List Objid) (h : ∀ a, f a = []) :
    ¬ HasCycle f := by
  rintro ⟨x, l, hcyc⟩
  rcases chain_first_step x x l hcyc with ⟨_, hR⟩ | ⟨a, l2, _, hR, _⟩
  · unfold StepRel at hR
    rw [h] at hR
    cases hR
  · unfold StepRel at hR
    rw [h] at hR
    cases hR

theorem exSibLoop_parent_empty :
    ∀ a, v4succ exSibLoop Object4.parent a = [] := by
  intro a
  unfold v4succ dbv4_find_object
  by_cases h : a < 0
  · rw [if_pos h]
  · rw [if_neg h]
    cases hn : a.toNat with
    | zero => rfl
    | succ m => rfl

theorem exSibLoop_location_empty :
    ∀ a, v4succ exSibLoop Object4.location a = [] := by
  intro a
  unfold v4succ dbv4_find_object
  by_cases h : a < 0
  · rw [if_pos h]
  · rw [if_neg h]
    cases hn : a.toNat with
    | zero => rfl
    | succ m => rfl

/-- Claim C5, counterexample: the store whose single object is its own
sibling and is reachable from its own child pointer passes phase 1 (all
references valid), contains no cycle in the parent relation and none in the
location relation, yet v4 phase 2 reports failure — the phase-2 loop also
walks the child-then-sibling chain and the contents-then-next chain
(db_file.c lines 553-556), so the claimed "iff" is false. -/
theorem c5_counterexample :
    v4RefsValid exSibLoop = true ∧
    v4_phase2ok exSibLoop = false ∧
    ¬ HasCycle (v4succ exSibLoop Object4.parent) ∧
    ¬ HasCycle (v4succ exSibLoop Object4.location) :=
  ⟨by decide, by decide,
   noCycle_of_empty _ exSibLoop_parent_empty,
   noCycle_of_empty _ exSibLoop_location_empty⟩

/-- Claim C5 (amended): for every store that passed phase 1 (all references
valid-or-NOTHING), v4 phase 2 reports failure iff the store contains a
cycle in the parent relation, or a cycle in the location relation, or a
sibling-chain cycle reachable from some live object's child pointer, or a
next-chain cycle reachable from some live object's contents pointer.
Next-gen phase 2 (membership of the origin in its own spec-modelled full
ancestor set or full enclosing-location set) reports failure iff the store
contains a cycle in the parents relation or in the location relation. -/
theorem c5_amended (tbl : V4Store) (st : NGStore)
    (hval : v4RefsValid tbl = true) :
    (v4_phase2ok tbl = false ↔
      (HasCycle (v4succ tbl Object4.parent) ∨
       HasCycle (v4succ tbl Object4.location) ∨
       (∃ o, some o ∈ tbl ∧ ReachesCycle (v4succ tbl Object4.sibling) o.child) ∨
       (∃ o, some o ∈ tbl ∧ ReachesCycle (v4succ tbl Object4.next) o.contents))) ∧
    (ng_phase2ok st = false ↔
      (HasCycle (ngParentsOf st) ∨ HasCycle (ngLocOf st))) := by
  refine ⟨?_, ng_phase2ok_false_iff st⟩
  rw [v4_phase2ok_false_iff tbl hval]
  constructor
  · rintro ⟨o, hm, hr | hr | hr | hr⟩
    · exact Or.inl ((exists_reaches_iff_hasCycle tbl Object4.parent).mp ⟨o, hm, hr⟩)
    · exact Or.inr (Or.inr (Or.inl ⟨o, hm, hr⟩))
    · exact Or.inr (Or.inl
        ((exists_reaches_iff_hasCycle tbl Object4.location).mp ⟨o, hm, hr⟩))
    · exact Or.inr (Or.inr (Or.inr ⟨o, hm, hr⟩))
  · rintro (h | h | h | h)
    · obtain ⟨o, hm, hr⟩ := (exists_reaches_iff_hasCycle tbl Object4.parent).mpr h
      exact ⟨o, hm, Or.inl hr⟩
    · obtain ⟨o, hm, hr⟩ := (exists_reaches_iff_hasCycle tbl Object4.location).mpr h
      exact ⟨o, hm, Or.inr (Or.inr (Or.inl hr))⟩
    · obtain ⟨o, hm, hr⟩ := h
      exact ⟨o, hm, Or.inr (Or.inl hr)⟩
    · obtain ⟨o, hm, hr⟩ := h
      exact ⟨o, hm, Or.inr (Or.inr (Or.inr hr))⟩

/-- Witness for `c5_amended` on concrete reference-valid stores. -/
theorem c5_amended_witness :
    v4RefsValid exInert = true ∧
    (v4_phase2ok exInert = false ↔
      (HasCycle (v4succ exInert Object4.parent) ∨
       HasCycle (v4succ exInert Object4.location) ∨
       (∃ o, some o ∈ exInert ∧
         ReachesCycle (v4succ exInert Object4.sibling) o.child) ∨
       (∃ o, some o ∈ exInert ∧
         ReachesCycle (v4succ exInert Object4.next) o.contents))) ∧
    (ng_phase2ok exNgInert = false ↔
      (HasCycle (ngParentsOf exNgInert) ∨ HasCycle (ngLocOf exNgInert))) :=
  ⟨by decide, (c5_amended exInert exNgInert (by decide)).1,
   (c5_amended exInert exNgInert (by decide)).2⟩
